import Mathlib

/-!
Shallow embedding of the jirafs data plane (in-memory cache over SQLite
persistence, sync engine, Jira HTTP client retry loop, renderer, FUSE
adapter entry points) together with theorems settling the specification
claims. Rust `String`/`Vec<u8>` payloads produced from UTF-8 strings are
modelled as Lean `String`s; raw byte payloads are `List Nat`; `Instant`
and `Duration` values are `Nat` seconds; hash maps keyed by strings are
modelled as functions `String → Option _`.
-/

namespace Jirafs

/-- POSIX errno values used by the FUSE adapter (`src/fs.rs`). -/
inductive Errno where
  | ENOENT
  | EROFS
  | EINVAL
  | EISDIR
  | EAGAIN
deriving DecidableEq, Repr

/-- Decidable equality for `Except`, used by concrete evaluations. -/
instance {ε α : Type} [DecidableEq ε] [DecidableEq α] : DecidableEq (Except ε α) :=
  fun x y =>
    match x, y with
    | Except.error a, Except.error b => decidable_of_iff (a = b) (by simp)
    | Except.ok a, Except.ok b => decidable_of_iff (a = b) (by simp)
    | Except.error _, Except.ok _ => isFalse (by simp)
    | Except.ok _, Except.error _ => isFalse (by simp)

/-- Process-wide metric counters (`src/metrics.rs`, `struct Metrics`). -/
structure Metrics where
  cacheHits : Nat
  cacheMisses : Nat
  staleServed : Nat
  apiRequests : Nat
  retries : Nat
deriving DecidableEq, Repr

/-- All-zero metrics, as produced by `Metrics::new`. -/
def Metrics.new : Metrics := ⟨0, 0, 0, 0, 0⟩

/-- `Metrics::inc_cache_hit`. -/
def Metrics.incCacheHit (m : Metrics) : Metrics := { m with cacheHits := m.cacheHits + 1 }

/-- `Metrics::inc_cache_miss`. -/
def Metrics.incCacheMiss (m : Metrics) : Metrics := { m with cacheMisses := m.cacheMisses + 1 }

/-- `Metrics::inc_stale_served`. -/
def Metrics.incStaleServed (m : Metrics) : Metrics := { m with staleServed := m.staleServed + 1 }

/-- `Metrics::inc_api_request`. -/
def Metrics.incApiRequest (m : Metrics) : Metrics := { m with apiRequests := m.apiRequests + 1 }

/-- `Metrics::inc_retry`. -/
def Metrics.incRetry (m : Metrics) : Metrics := { m with retries := m.retries + 1 }

/-- Insert-or-replace on a function-backed map, mirroring `HashMap::insert`. -/
def mapInsert {β : Type} (m : String → Option β) (k : String) (v : β) :
    String → Option β :=
  fun q => if q = k then some v else m q

/-- Lightweight issue listing entry (`src/jira.rs`, `struct IssueRef`). -/
structure IssueRef where
  key : String
  updated : Option String
deriving DecidableEq, Repr

/-- In-memory cached value with TTL and source metadata
(`src/cache.rs`, `struct CacheEntry<T>`). -/
structure CacheEntry (T : Type) where
  value : T
  cachedAt : Nat
  ttl : Nat
  sourceUpdated : Option String
deriving DecidableEq, Repr

/-- Persisted row of the `issues` table (`src/cache/persistent.rs`). -/
structure PersistentIssueRow where
  markdown : String
  updated : Option String
  cachedAt : Nat
  accessCount : Nat
deriving DecidableEq, Repr

/-- Persisted row of the `issue_sidecars` table (`src/cache/persistent.rs`). -/
structure PersistentSidecarRow where
  commentsMd : String
  updated : Option String
  cachedAt : Nat
deriving DecidableEq, Repr

/-- State of the SQLite-backed store (`src/cache/persistent.rs`,
`struct PersistentCache`): the four tables, each keyed by its primary key. -/
structure PersistentState where
  issues : String → Option PersistentIssueRow
  sidecars : String → Option PersistentSidecarRow
  cursors : String → Option String
  workspaceIssues : String → Option (List IssueRef)

/-- Empty persistent store, as after `PersistentCache::new` on a fresh file. -/
def PersistentState.empty : PersistentState :=
  ⟨fun _ => none, fun _ => none, fun _ => none, fun _ => none⟩

/-- `PersistentCache::get_issue`: returns the row and increments its
`access_count` in the same critical section. -/
def PersistentState.getIssue (p : PersistentState) (issueKey : String) :
    Option PersistentIssueRow × PersistentState :=
  match p.issues issueKey with
  | some row =>
      let bumped := { row with accessCount := row.accessCount + 1 }
      (some row, { p with issues := mapInsert p.issues issueKey bumped })
  | none => (none, p)

/-- `PersistentCache::upsert_issue`: INSERT … ON CONFLICT DO UPDATE, setting
`cached_at = now` and bumping `access_count`. -/
def PersistentState.upsertIssue (p : PersistentState) (issueKey markdown : String)
    (updated : Option String) (now : Nat) : PersistentState :=
  let newCount := match p.issues issueKey with
    | some row => row.accessCount + 1
    | none => 1
  { p with issues := mapInsert p.issues issueKey ⟨markdown, updated, now, newCount⟩ }

/-- `PersistentCache::upsert_issues_batch`: one transaction of per-row
upserts; returns the row count. -/
def PersistentState.upsertIssuesBatch (p : PersistentState)
    (rows : List (String × String × Option String)) (now : Nat) :
    Nat × PersistentState :=
  match rows with
  | [] => (0, p)
  | (key, md, upd) :: rest =>
      let (n, p') := (p.upsertIssue key md upd now).upsertIssuesBatch rest now
      (n + 1, p')

/-- `PersistentCache::upsert_issue_sidecars_batch`: one transaction of
per-row sidecar upserts; returns the row count. -/
def PersistentState.upsertSidecarsBatch (p : PersistentState)
    (rows : List (String × String × Option String)) (now : Nat) :
    Nat × PersistentState :=
  match rows with
  | [] => (0, p)
  | (key, md, upd) :: rest =>
      let p1 := { p with sidecars := mapInsert p.sidecars key ⟨md, upd, now⟩ }
      let (n, p') := p1.upsertSidecarsBatch rest now
      (n + 1, p')

/-- `PersistentCache::upsert_workspace_issue_refs`: one transaction that
DELETEs the workspace's rows then INSERTs each ref. The table's primary key
is `(workspace, issue_key)`, so a ref list with a duplicated key violates
the constraint and the transaction fails, leaving the table unchanged (the
caller in `src/cache.rs` discards the error). -/
def PersistentState.upsertWorkspaceIssueRefs (p : PersistentState)
    (workspace : String) (refs : List IssueRef) : PersistentState :=
  if (refs.map IssueRef.key).Nodup then
    { p with workspaceIssues := mapInsert p.workspaceIssues workspace refs }
  else
    p

/-- `PersistentCache::set_sync_cursor`. -/
def PersistentState.setSyncCursor (p : PersistentState) (workspace lastSync : String) :
    PersistentState :=
  { p with cursors := mapInsert p.cursors workspace lastSync }

/-- Snapshot of workspace issue refs with staleness signal
(`src/cache.rs`, `struct WorkspaceIssuesSnapshot`). -/
structure WorkspaceIssuesSnapshot where
  issues : List IssueRef
  isStale : Bool
deriving DecidableEq, Repr

/-- In-memory cache with optional persistence (`src/cache.rs`,
`struct InMemoryCache`). The two mutex-guarded maps are function-backed;
`metrics` is the shared counter block. -/
structure CacheState where
  workspaceTtl : Nat
  issueTtl : Nat
  workspaceIssues : String → Option (CacheEntry (List IssueRef))
  issueMarkdown : String → Option (CacheEntry String)
  persistent : Option PersistentState
  metrics : Metrics

/-- `InMemoryCache::new`: no persistence, empty maps. -/
def CacheState.new (workspaceTtl issueTtl : Nat) : CacheState :=
  ⟨workspaceTtl, issueTtl, fun _ => none, fun _ => none, none, Metrics.new⟩

/-- `InMemoryCache::with_persistence` on a fresh database file. -/
def CacheState.withPersistence (workspaceTtl issueTtl : Nat) : CacheState :=
  ⟨workspaceTtl, issueTtl, fun _ => none, fun _ => none,
    some PersistentState.empty, Metrics.new⟩

/-- `InMemoryCache::has_persistence`. -/
def CacheState.hasPersistence (st : CacheState) : Bool :=
  st.persistent.isSome

/-- `InMemoryCache::get_sync_cursor`: persisted cursor when available. -/
def CacheState.getSyncCursor (st : CacheState) (workspace : String) : Option String :=
  match st.persistent with
  | some p => p.cursors workspace
  | none => none

/-- `InMemoryCache::set_sync_cursor`: writes persistence when configured. -/
def CacheState.setSyncCursor (st : CacheState) (workspace lastSync : String) : CacheState :=
  match st.persistent with
  | some p => { st with persistent := some (p.setSyncCursor workspace lastSync) }
  | none => st

/-- `InMemoryCache::get_workspace_issues_snapshot`: clones the entry under
lock, classifies stale by TTL, bumps hit/miss metrics. First component is
the returned snapshot, second the state after the metric update. -/
def CacheState.getWorkspaceIssuesSnapshot (st : CacheState) (workspace : String)
    (now : Nat) : Option WorkspaceIssuesSnapshot × CacheState :=
  match st.workspaceIssues workspace with
  | none => (none, st)
  | some entry =>
      let isStale := decide (entry.ttl ≤ now - entry.cachedAt)
      let st' :=
        if isStale then { st with metrics := st.metrics.incCacheMiss }
        else { st with metrics := st.metrics.incCacheHit }
      (some ⟨entry.value, isStale⟩, st')

/-- `InMemoryCache::upsert_workspace_issues`: replaces the in-memory entry,
then forwards to `upsert_workspace_issue_refs` (persistence errors
discarded). -/
def CacheState.upsertWorkspaceIssues (st : CacheState) (workspace : String)
    (issues : List IssueRef) (now : Nat) : CacheState :=
  let entry : CacheEntry (List IssueRef) := ⟨issues, now, st.workspaceTtl, none⟩
  let st1 := { st with workspaceIssues := mapInsert st.workspaceIssues workspace entry }
  match st1.persistent with
  | some p => { st1 with persistent := some (p.upsertWorkspaceIssueRefs workspace issues) }
  | none => st1

/-- `InMemoryCache::get_issue_markdown_stale_safe`
(`src/cache.rs:159-248`): the central stale-safe read policy for issue
bodies. `fetch` is the refresh closure's outcome; staleness of the cloned
entry is `now − cached_at ≥ ttl`. Returns the read result and the state
after map and metric updates. -/
def CacheState.getIssueMarkdownStaleSafe {ε : Type} (st : CacheState)
    (issueKey : String) (now : Nat) (fetch : Except ε (String × Option String)) :
    Except ε String × CacheState :=
  let existing := st.issueMarkdown issueKey
  match existing with
  | some entry =>
      -- fresh in-memory hit returns early; otherwise fall through to fetch
      if now - entry.cachedAt < entry.ttl then
        (Except.ok entry.value, { st with metrics := st.metrics.incCacheHit })
      else
        afterMiss st (some entry)
  | none =>
      -- empty memory: hydrate from persistence when a row exists
      match st.persistent with
      | some p =>
          (match p.getIssue issueKey with
          | (some row, p') =>
              let hydrated : CacheEntry String := ⟨row.markdown, now, st.issueTtl, row.updated⟩
              (Except.ok row.markdown,
                { st with
                    issueMarkdown := mapInsert st.issueMarkdown issueKey hydrated,
                    persistent := some p',
                    metrics := st.metrics.incCacheHit })
          | (none, _) => afterMiss st none)
      | none => afterMiss st none
where
  /-- Tail of the function from the `inc_cache_miss` call on: consult
  `fetch`; on error serve the existing bytes with `stale_served` bumped or
  surface the error; on success apply the `source_updated` comparison
  against the (unchanged) map entry, else store fresh bytes in memory and
  persistence. -/
  afterMiss (st : CacheState) (existing : Option (CacheEntry String)) :
      Except ε String × CacheState :=
    let st1 := { st with metrics := st.metrics.incCacheMiss }
    match fetch with
    | Except.error err =>
        match existing with
        | some entry =>
            (Except.ok entry.value, { st1 with metrics := st1.metrics.incStaleServed })
        | none => (Except.error err, st1)
    | Except.ok (freshMarkdown, freshUpdated) =>
        match st1.issueMarkdown issueKey with
        | some entry =>
            if entry.sourceUpdated = freshUpdated then
              let entry' := { entry with cachedAt := now }
              (Except.ok entry'.value,
                { st1 with issueMarkdown := mapInsert st1.issueMarkdown issueKey entry' })
            else
              storeFresh st1 freshMarkdown freshUpdated
        | none => storeFresh st1 freshMarkdown freshUpdated
  /-- Shared tail: replace memory and, when configured, persistence with the
  freshly fetched payload. -/
  storeFresh (st1 : CacheState) (freshMarkdown : String)
      (freshUpdated : Option String) : Except ε String × CacheState :=
    let entry : CacheEntry String := ⟨freshMarkdown, now, st1.issueTtl, freshUpdated⟩
    let st2 := { st1 with issueMarkdown := mapInsert st1.issueMarkdown issueKey entry }
    match st2.persistent with
    | some p =>
        (Except.ok freshMarkdown,
          { st2 with persistent := some (p.upsertIssue issueKey freshMarkdown freshUpdated now) })
    | none => (Except.ok freshMarkdown, st2)

/-- Placeholder body emitted by `JiraFuseFs::issue_bytes`
(`src/fs.rs:232-242`) when the stale-safe read fails. -/
def issuePlaceholder (issueKey : String) : String :=
  "# " ++ issueKey ++
    "\n\nNot yet available in local cache. Wait for sync interval or trigger manual refresh via `.sync_meta/manual_refresh`.\n"

/-- Placeholder body as quoted by the specification (§4.7/§8), for the
byte-for-byte comparison of claim C5; the spec's text carries no backticks
around `.sync_meta/manual_refresh`. -/
def specIssuePlaceholder (issueKey : String) : String :=
  "# " ++ issueKey ++
    "\n\nNot yet available in local cache. Wait for sync interval or trigger manual refresh via .sync_meta/manual_refresh.\n"

/-- `JiraFuseFs::issue_bytes` (`src/fs.rs:232-242`): stale-safe read with a
fetch closure that always fails with `EAGAIN`; any error is replaced by the
placeholder body. -/
def issueBytes (st : CacheState) (issueKey : String) (now : Nat) : String × CacheState :=
  match st.getIssueMarkdownStaleSafe (ε := Errno) issueKey now (Except.error Errno.EAGAIN) with
  | (Except.ok bytes, st') => (bytes, st')
  | (Except.error _, st') => (issuePlaceholder issueKey, st')

/-- Cache state used to exercise claim C1: one fresh in-memory entry for
`PROJ-1` (cached at 0 with TTL 10), no persistence, zeroed metrics. -/
def c1FreshState : CacheState :=
  { workspaceTtl := 30, issueTtl := 10,
    workspaceIssues := fun _ => none,
    issueMarkdown := mapInsert (fun _ => none) "PROJ-1" ⟨"v1", 0, 10, some "u1"⟩,
    persistent := none,
    metrics := Metrics.new }

/-- Cache state used for the C1 witness: a TTL-0 entry for `PROJ-1`, so the
read at `now = 0` is classified a miss and the stale path runs. -/
def c1StaleState : CacheState :=
  { workspaceTtl := 0, issueTtl := 0,
    workspaceIssues := fun _ => none,
    issueMarkdown := mapInsert (fun _ => none) "PROJ-1" ⟨"old", 0, 0, some "same"⟩,
    persistent := none,
    metrics := Metrics.new }

/-- Fresh cache with empty persistence configured, for claim C5. -/
def c5EmptyState : CacheState := CacheState.withPersistence 30 30

-- ## Renderer (`src/render.rs`)

/-- ASCII whitespace, the ASCII fragment of Rust's `char::is_whitespace`
and of the regex crate's `\s`. The model treats text bytewise with ASCII
classes; all payloads exercised here are ASCII. -/
def isSpaceChar (c : Char) : Bool :=
  c = ' ' || c = '\t' || c = '\n' || c = '\r' || c = '\x0b' || c = '\x0c'

/-- Character class `[A-Za-z0-9._\-]` used by the BEARER and ASSIGNMENT
redaction patterns. -/
def isSecretTokenChar (c : Char) : Bool :=
  c.isAlphanum || c = '.' || c = '_' || c = '-'

/-- Character class `[A-Za-z0-9_\-]` of the LONG_TOKEN redaction pattern. -/
def isLongTokenChar (c : Char) : Bool :=
  c.isAlphanum || c = '_' || c = '-'

/-- Regex word character `\w` (ASCII fragment), deciding `\b` boundaries. -/
def isWordChar (c : Char) : Bool :=
  c.isAlphanum || c = '_'

/-- Length of a leftmost match of `(?i)bearer\s+[A-Za-z0-9._\-]{16,}` when
one starts at the head of `l`. -/
def bearerMatchLen (l : List Char) : Option Nat :=
  if ((l.take 6).map Char.toLower) = "bearer".data ∧ 6 ≤ l.length then
    let rest := l.drop 6
    let ws := (rest.takeWhile isSpaceChar).length
    if ws = 0 then none
    else
      let tok := ((rest.drop ws).takeWhile isSecretTokenChar).length
      if tok < 16 then none else some (6 + ws + tok)
  else none

/-- `replace_all` of the BEARER pattern with `"Bearer [REDACTED]"`,
scanning left to right; `fuel` starts at the list length and bounds the
recursion (each step consumes at least one character). -/
def replaceBearerGo : Nat → List Char → List Char
  | 0, l => l
  | _ + 1, [] => []
  | fuel + 1, c :: cs =>
    match bearerMatchLen (c :: cs) with
    | some n => "Bearer [REDACTED]".data ++ replaceBearerGo fuel ((c :: cs).drop n)
    | none => c :: replaceBearerGo fuel cs

/-- Length of the key alternative of the ASSIGNMENT pattern
`(api[_-]?key|token|secret|password)` matching at the head of `l`,
trying the alternatives in pattern order (leftmost-first semantics). -/
def assignKeyLen (l : List Char) : Option Nat :=
  let lower := l.map Char.toLower
  if lower.take 3 = "api".data ∧ 3 ≤ l.length then
    if (lower.get? 3 = some '_' ∨ lower.get? 3 = some '-') ∧
        (lower.drop 4).take 3 = "key".data ∧ 7 ≤ l.length then some 7
    else if (lower.drop 3).take 3 = "key".data ∧ 6 ≤ l.length then some 6
    else none
  else if lower.take 5 = "token".data ∧ 5 ≤ l.length then some 5
  else if lower.take 6 = "secret".data ∧ 6 ≤ l.length then some 6
  else if lower.take 8 = "password".data ∧ 8 ≤ l.length then some 8
  else none

/-- Length of a leftmost match of the full ASSIGNMENT pattern
`(?i)(api[_-]?key|token|secret|password)\s*[:=]\s*['\"]?[A-Za-z0-9._\-]{8,}['\"]?`
starting at the head of `l`, paired with the captured key length. -/
def assignMatchLen (l : List Char) : Option (Nat × Nat) := do
  let k ← assignKeyLen l
  let rest := l.drop k
  let ws1 := (rest.takeWhile isSpaceChar).length
  let rest1 := rest.drop ws1
  match rest1 with
  | [] => none
  | sep :: rest2 =>
    if sep = ':' ∨ sep = '=' then
      let ws2 := (rest2.takeWhile isSpaceChar).length
      let rest3 := rest2.drop ws2
      let (q1, rest4) :=
        match rest3 with
        | c :: cs => if c = '\'' ∨ c = '\"' then (1, cs) else (0, rest3)
        | [] => (0, rest3)
      let tok := (rest4.takeWhile isSecretTokenChar).length
      if tok < 8 then none
      else
        let rest5 := rest4.drop tok
        let q2 : Nat :=
          match rest5 with
          | c :: _ => if c = '\'' ∨ c = '\"' then 1 else 0
          | [] => 0
        some (k, k + ws1 + 1 + ws2 + q1 + tok + q2)
    else none

/-- `replace_all` of the ASSIGNMENT pattern with `"$1=[REDACTED]"` (the
captured key text is preserved verbatim). -/
def replaceAssignGo : Nat → List Char → List Char
  | 0, l => l
  | _ + 1, [] => []
  | fuel + 1, c :: cs =>
    match assignMatchLen (c :: cs) with
    | some (k, n) =>
        ((c :: cs).take k) ++ "=[REDACTED]".data ++
          replaceAssignGo fuel ((c :: cs).drop n)
    | none => c :: replaceAssignGo fuel cs

/-- Length of a leftmost match of `\b[A-Za-z0-9_\-]{32,}\b` starting at the
head of `l`, where `prevWord` tells whether the character before `l` is a
word character. The trailing `\b` backtracks the greedy repetition from the
maximal run down to 32 characters. -/
def longTokenMatchLen (prevWord : Bool) (l : List Char) : Option Nat :=
  match l with
  | [] => none
  | c :: _ =>
    if prevWord = isWordChar c then none
    else
      let run := l.takeWhile isLongTokenChar
      if run.length < 32 then none
      else backtrack run run.length
where
  /-- Largest `t` with `32 ≤ t ≤ run.length` such that a word boundary
  falls between positions `t-1` and `t` of the run (characters past the run
  are never word characters, since `\w ⊆` the token class). -/
  backtrack (run : List Char) : Nat → Option Nat
    | 0 => none
    | t + 1 =>
      if t + 1 < 32 then none
      else
        let lastWord := (run.get? t).any isWordChar
        let nextWord := (run.get? (t + 1)).any isWordChar
        if lastWord ≠ nextWord then some (t + 1) else backtrack run t

/-- `replace_all` of the LONG_TOKEN pattern with `"[REDACTED]"`; `prevWord`
carries the word-character status of the previously scanned character of
the original text. -/
def replaceLongGo : Nat → Bool → List Char → List Char
  | 0, _, l => l
  | _ + 1, _, [] => []
  | fuel + 1, prevWord, c :: cs =>
    match longTokenMatchLen prevWord (c :: cs) with
    | some n =>
        let matched := (c :: cs).take n
        let prev' := (matched.getLast?).any isWordChar
        "[REDACTED]".data ++ replaceLongGo fuel prev' ((c :: cs).drop n)
    | none => c :: replaceLongGo fuel (isWordChar c) cs

/-- `redact_secrets` (`src/render.rs:336-359`): the three regex
`replace_all` passes — BEARER, then ASSIGNMENT, then LONG_TOKEN — run in
sequence over the whole string. -/
def redact_secrets (input : String) : String :=
  let s1 := replaceBearerGo input.data.length input.data
  let s2 := replaceAssignGo s1.length s1
  String.mk (replaceLongGo s2.length false s2)

/-- Two-digit zero-padded decimal. -/
def pad2 (n : Nat) : String :=
  if n < 10 then "0" ++ toString n else toString n

/-- Four-digit zero-padded decimal. -/
def pad4 (n : Nat) : String :=
  if n < 10 then "000" ++ toString n
  else if n < 100 then "00" ++ toString n
  else if n < 1000 then "0" ++ toString n
  else toString n

/-- Days from civil date to 1970-01-01 (Howard Hinnant's `days_from_civil`,
the algorithm underlying chrono's calendar arithmetic). -/
def daysFromCivil (y : Nat) (m d : Nat) : Int :=
  let y' : Nat := if m ≤ 2 then y - 1 else y
  let era : Nat := y' / 400
  let yoe : Nat := y' % 400
  let mp : Nat := (m + 9) % 12
  let doy : Nat := (153 * mp + 2) / 5 + d - 1
  let doe : Nat := yoe * 365 + yoe / 4 - yoe / 100 + doy
  (era * 146097 + doe : Int) - 719468

/-- Civil date from days since 1970-01-01 (Hinnant's `civil_from_days`). -/
def civilFromDays (z : Int) : Nat × Nat × Nat :=
  let z' := z + 719468
  let era : Int := z'.fdiv 146097
  let doe : Nat := (z'.fmod 146097).toNat
  let yoe : Nat := (doe - doe / 1460 + doe / 36524 - doe / 146096) / 365
  let doy : Nat := doe - (365 * yoe + yoe / 4 - yoe / 100)
  let mp : Nat := (5 * doy + 2) / 153
  let d : Nat := doy - (153 * mp + 2) / 5 + 1
  let m : Nat := if mp < 10 then mp + 3 else mp - 9
  let y : Int := (yoe : Int) + era * 400 + (if m ≤ 2 then 1 else 0)
  (y.toNat, m, d)

/-- Days in a month under the Gregorian leap rule. -/
def daysInMonth (y m : Nat) : Nat :=
  if m = 2 then
    if y % 4 = 0 ∧ (y % 100 ≠ 0 ∨ y % 400 = 0) then 29 else 28
  else if m = 4 ∨ m = 6 ∨ m = 9 ∨ m = 11 then 30
  else 31

/-- Parse exactly `n` ASCII digits from the head of `l`, returning the value
and the remainder. -/
def parseDigits (n : Nat) (l : List Char) : Option (Nat × List Char) :=
  let ds := l.take n
  if ds.length = n ∧ ds.all Char.isDigit then
    some (ds.foldl (fun acc c => acc * 10 + (c.toNat - 48)) 0, l.drop n)
  else none

/-- Parse a timezone offset in seconds: `Z`/`z`, or `±HH:MM` / `±HHMM`
(chrono accepts the colon optionally for `%z`). -/
def parseTzOffset (l : List Char) : Option (Int × List Char) :=
  match l with
  | 'Z' :: rest => some (0, rest)
  | 'z' :: rest => some (0, rest)
  | sign :: rest =>
    if sign = '+' ∨ sign = '-' then do
      let (hh, rest1) ← parseDigits 2 rest
      let rest2 := match rest1 with
        | ':' :: r => r
        | r => r
      let (mm, rest3) ← parseDigits 2 rest2
      if hh ≤ 23 ∧ mm ≤ 59 then
        let secs : Int := (hh * 3600 + mm * 60 : Nat)
        some (if sign = '-' then -secs else secs, rest3)
      else none
    else none
  | [] => none

/-- Models chrono's datetime parsing as used by `normalize_iso_utc`
(`src/render.rs:195-223`): the union of RFC 3339 and the
`%Y-%m-%dT%H:%M:%S%.f%z` / `%Y-%m-%dT%H:%M:%S%z` formats —
`YYYY-MM-DDTHH:MM:SS`, an optional `.digits` fraction, then an offset.
Returns seconds since the epoch after applying the offset (leap seconds are
not modelled; the fraction is discarded as `SecondsFormat::Secs`
truncates). -/
def parseDateTimeUtcSecs (s : String) : Option Int := do
  let l := s.data
  let (y, r1) ← parseDigits 4 l
  let r2 ← expect '-' r1
  let (mo, r3) ← parseDigits 2 r2
  let r4 ← expect '-' r3
  let (d, r5) ← parseDigits 2 r4
  let r6 ← expect 'T' r5
  let (h, r7) ← parseDigits 2 r6
  let r8 ← expect ':' r7
  let (mi, r9) ← parseDigits 2 r8
  let r10 ← expect ':' r9
  let (sec, r11) ← parseDigits 2 r10
  let r12 := skipFraction r11
  let (off, r13) ← parseTzOffset r12
  if r13 = [] ∧ 1 ≤ mo ∧ mo ≤ 12 ∧ 1 ≤ d ∧ d ≤ daysInMonth y mo ∧
      h ≤ 23 ∧ mi ≤ 59 ∧ sec ≤ 59 then
    some (daysFromCivil y mo d * 86400 + (h * 3600 + mi * 60 + sec : Nat) - off)
  else none
where
  /-- Consume one expected character. -/
  expect (c : Char) : List Char → Option (List Char)
    | d :: rest => if d = c then some rest else none
    | [] => none
  /-- Consume an optional `.digits+` fraction. -/
  skipFraction : List Char → List Char
    | '.' :: rest =>
        if (rest.takeWhile Char.isDigit).length = 0 then '.' :: rest
        else rest.dropWhile Char.isDigit
    | l => l

/-- Format epoch seconds as `to_rfc3339_opts(SecondsFormat::Secs, true)`
does for a UTC datetime: `YYYY-MM-DDTHH:MM:SSZ`. -/
def formatUtcSecs (t : Int) : String :=
  let days := t.fdiv 86400
  let rem := (t.fmod 86400).toNat
  let (y, m, d) := civilFromDays days
  pad4 y ++ "-" ++ pad2 m ++ "-" ++ pad2 d ++ "T" ++
    pad2 (rem / 3600) ++ ":" ++ pad2 (rem % 3600 / 60) ++ ":" ++ pad2 (rem % 60) ++ "Z"

/-- Rust `str::trim` (ASCII-whitespace model). -/
def rustTrim (s : String) : String :=
  String.mk (((s.data.dropWhile isSpaceChar).reverse.dropWhile isSpaceChar).reverse)

/-- Rust `str::trim_end` (ASCII-whitespace model). -/
def rustTrimEnd (s : String) : String :=
  String.mk ((s.data.reverse.dropWhile isSpaceChar).reverse)

/-- `normalize_iso_utc` (`src/render.rs:195-223`): trim, reject empty,
parse one of the three accepted datetime shapes, convert to UTC and emit
`%Y-%m-%dT%H:%M:%SZ`; `None` when nothing parses. -/
def normalize_iso_utc (raw : Option String) : Option String := do
  let value := rustTrim (← raw)
  if value.data = [] then none
  else
    match parseDateTimeUtcSecs value with
    | some t => some (formatUtcSecs t)
    | none => none

/-- `serde_json::Value`, as consumed by the ADF-to-markdown conversion. -/
inductive Json where
  | null
  | bool (b : Bool)
  | num (n : Int)
  | str (s : String)
  | arr (items : List Json)
  | obj (fields : List (String × Json))

mutual

/-- Executable size of a `Json` tree, used as recursion fuel for the ADF
conversion (it dominates the nesting depth). -/
def Json.size : Json → Nat
  | .null => 1
  | .bool _ => 1
  | .num _ => 1
  | .str _ => 1
  | .arr items => 1 + Json.sizeList items
  | .obj fields => 1 + Json.sizeFields fields

/-- Size of a list of `Json` values. -/
def Json.sizeList : List Json → Nat
  | [] => 0
  | j :: js => Json.size j + Json.sizeList js

/-- Size of an object's field list. -/
def Json.sizeFields : List (String × Json) → Nat
  | [] => 0
  | (_, j) :: fs => Json.size j + Json.sizeFields fs

end

/-- `Value::as_str`. -/
def Json.asStr : Json → Option String
  | .str s => some s
  | _ => none

/-- Field lookup on an object's field list (`serde_json::Map::get`). -/
def Json.objGet (fields : List (String × Json)) (k : String) : Option Json :=
  (fields.find? (fun p => p.1 = k)).map Prod.snd

/-- `Value::get(key)`: `None` on non-objects. -/
def Json.getField : Json → String → Option Json
  | .obj fs, k => Json.objGet fs k
  | _, _ => none

/-- `extract_mark_link` (`src/render.rs:319-334`): first `link` mark's
`attrs.href` string. -/
def extract_mark_link (marks : Option Json) : Option String :=
  match marks with
  | some (.arr ms) =>
      ms.findSome? (fun mark =>
        let kind := ((mark.getField "type").bind Json.asStr).getD ""
        if kind ≠ "link" then none
        else ((mark.getField "attrs").bind (fun a => a.getField "href")).bind Json.asStr)
  | _ => none

/-- Case-sensitive `str::starts_with` for string literals. -/
def startsWithStr (s pre : String) : Bool :=
  s.data.take pre.data.length = pre.data

/-- Rust `str::to_ascii_lowercase` (Lean's `Char.toLower` lowercases
exactly ASCII). -/
def toAsciiLower (s : String) : String :=
  String.mk (s.data.map Char.toLower)

/-- `adf_to_markdown_inner` (`src/render.rs:230-317`): recursive conversion
of the ADF tree; `fuel` bounds the nesting depth and is instantiated with
`sizeOf` of the root, which dominates the tree depth. -/
def adfInnerGo : Nat → Json → String
  | 0, _ => ""
  | _ + 1, .str s => s
  | fuel + 1, .arr items =>
      String.intercalate "\n"
        ((items.map (adfInnerGo fuel)).filter (fun s => !(rustTrim s).data.isEmpty))
  | fuel + 1, .obj fields =>
      let nodeType := ((Json.objGet fields "type").bind Json.asStr).getD ""
      if nodeType = "text" then
        let text := ((Json.objGet fields "text").bind Json.asStr).getD ""
        match extract_mark_link (Json.objGet fields "marks") with
        | some link => if text ≠ "" then "[" ++ text ++ "](" ++ link ++ ")" else text
        | none => text
      else if nodeType = "hardBreak" then "\n"
      else if nodeType = "paragraph" ∨ nodeType = "heading" then
        let content := match Json.objGet fields "content" with
          | some c => adfInnerGo fuel c
          | none => ""
        rustTrim content ++ "\n"
      else if nodeType = "mention" then
        let fromAttrs := fun (k : String) =>
          ((Json.objGet fields "attrs").bind (fun a => a.getField k)).bind Json.asStr
        let display := ((fromAttrs "text").orElse (fun _ => fromAttrs "displayName")).getD
          "unknown"
        if startsWithStr display "@" then display else "@" ++ display
      else if nodeType = "emoji" then
        let fromAttrs := fun (k : String) =>
          ((Json.objGet fields "attrs").bind (fun a => a.getField k)).bind Json.asStr
        ((fromAttrs "shortName").orElse (fun _ => fromAttrs "text")).getD ":emoji:"
      else if nodeType = "inlineCard" ∨ nodeType = "blockCard" then
        let url := (((Json.objGet fields "attrs").bind
          (fun a => a.getField "url")).bind Json.asStr).getD ""
        if url = "" then "" else "[" ++ url ++ "](" ++ url ++ ")"
      else if nodeType = "media" ∨ nodeType = "file" then ""
      else
        match Json.objGet fields "content" with
        | some c => adfInnerGo fuel c
        | none =>
          match Json.objGet fields "text" with
          | some t => adfInnerGo fuel t
          | none => ""
  | _ + 1, _ => ""

/-- `adf_to_markdown` (`src/render.rs:225-228`): convert, trim, redact. -/
def adf_to_markdown (value : Json) : String :=
  redact_secrets (rustTrim (adfInnerGo value.size value))

/-- Attachment metadata (`src/jira.rs`, `struct IssueAttachment`). -/
structure IssueAttachment where
  id : String
  filename : String
deriving DecidableEq, Repr

/-- Comment payload (`src/jira.rs`, `struct IssueComment`). -/
structure IssueComment where
  id : Option String
  authorDisplayName : Option String
  body : Json
  created : Option String

/-- Normalized issue payload (`src/jira.rs`, `struct IssueData`). -/
structure IssueData where
  key : String
  project : String
  issueType : Option String
  summary : Option String
  status : Option String
  priority : Option String
  assignee : Option String
  reporter : Option String
  labels : List String
  created : Option String
  updated : Option String
  parent : Option String
  epic : Option String
  blocks : List String
  blockedBy : List String
  relatesTo : List String
  dueAt : Option String
  sourceUrl : String
  attachments : List IssueAttachment
  description : Json
  comments : List IssueComment

/-- Split a character list at every `\n` (`str::split('\n')`). -/
def splitNlGo : List Char → List Char → List String
  | acc, [] => [String.mk acc.reverse]
  | acc, c :: cs =>
    if c = '\n' then String.mk acc.reverse :: splitNlGo [] cs
    else splitNlGo (c :: acc) cs

/-- Rust `str::lines`: split on `\n`, drop a final empty piece after a
trailing newline, strip one trailing `\r` per line. -/
def rustLines (s : String) : List String :=
  if s.data.isEmpty then []
  else
    let parts := splitNlGo [] s.data
    let parts := if s.data.getLast? = some '\n' then parts.dropLast else parts
    parts.map (fun line =>
      if line.data.getLast? = some '\r' then String.mk line.data.dropLast else line)

/-- `split_acceptance_criteria` (`src/render.rs:127-142`). -/
def split_acceptance_criteria (markdown : String) : List String × String :=
  let step := fun (acc : List String × List String) (rawLine : String) =>
    let line := rustTrimEnd rawLine
    let lower := toAsciiLower line
    if startsWithStr lower "- [ ]" || startsWithStr lower "- [x]" then
      (acc.1 ++ [line], acc.2)
    else
      (acc.1, acc.2 ++ [line])
  let pair := (rustLines markdown).foldl step ([], [])
  (pair.1, rustTrim (String.intercalate "\n" pair.2))

/-- `canonical_status` (`src/render.rs:144-152`). -/
def canonical_status (raw : Option String) : String :=
  match toAsciiLower (raw.getD "") with
  | "done" | "closed" | "resolved" => "done"
  | "in review" | "review" | "qa" => "in_review"
  | "blocked" => "blocked"
  | "in progress" | "doing" | "active" => "in_progress"
  | _ => "todo"

/-- `canonical_type` (`src/render.rs:154-162`). -/
def canonical_type (raw : Option String) : String :=
  match toAsciiLower (raw.getD "") with
  | "epic" => "epic"
  | "story" => "story"
  | "bug" => "bug"
  | "sub-task" | "subtask" => "subtask"
  | _ => "task"

/-- `canonical_priority` (`src/render.rs:164-172`). -/
def canonical_priority (raw : Option String) : String :=
  match toAsciiLower (raw.getD "") with
  | "highest" | "blocker" => "p0"
  | "high" => "p1"
  | "medium" => "p2"
  | "low" => "p3"
  | _ => "p4"

/-- Character-level `str::replace('"', "\\\"")`. -/
def escapeQuote : List Char → List Char
  | [] => []
  | c :: cs => if c = '"' then '\\' :: '"' :: escapeQuote cs else c :: escapeQuote cs

/-- `yaml_quote` (`src/render.rs:191-193`): `v.replace('"', "\\\"")` in
double quotes, the replacement written out character by character. -/
def yaml_quote (v : String) : String :=
  "\"" ++ String.mk (escapeQuote v.data) ++ "\""

/-- `yaml_opt` (`src/render.rs:174-177`). -/
def yaml_opt (v : Option String) : String :=
  match v with
  | some s => yaml_quote s
  | none => "null"

/-- `yaml_array` (`src/render.rs:179-189`). -/
def yaml_array (values : List String) : String :=
  if values.isEmpty then "[]"
  else "[" ++ String.intercalate ", " (values.map yaml_quote) ++ "]"

/-- Front-matter block of `render_issue_markdown` (`src/render.rs:27-47`):
the `push_str` lines up to `"---\n\n"`. Redaction is applied to the
assignee, reporter and label inputs; `id`, `project`, `parent`, `epic`,
the link arrays and `source_url` are emitted from the raw values. -/
def renderFrontMatter (issue : IssueData) : String :=
  let status := canonical_status issue.status
  let issueType := canonical_type issue.issueType
  let priority := canonical_priority issue.priority
  let assignee := redact_secrets (issue.assignee.getD "unassigned")
  let reporter := redact_secrets (issue.reporter.getD "unknown")
  let labels := issue.labels.map redact_secrets
  let createdAt := normalize_iso_utc issue.created
  let updatedAt := normalize_iso_utc issue.updated
  let dueAt := normalize_iso_utc issue.dueAt
  "---\n" ++
  "id: " ++ issue.key ++ "\n" ++
  "project: " ++ issue.project ++ "\n" ++
  "type: " ++ issueType ++ "\n" ++
  "status: " ++ status ++ "\n" ++
  "priority: " ++ priority ++ "\n" ++
  "assignee: " ++ yaml_quote assignee ++ "\n" ++
  "reporter: " ++ yaml_quote reporter ++ "\n" ++
  "labels: " ++ yaml_array labels ++ "\n" ++
  "created_at: " ++ yaml_opt createdAt ++ "\n" ++
  "updated_at: " ++ yaml_opt updatedAt ++ "\n" ++
  "parent: " ++ yaml_opt issue.parent ++ "\n" ++
  "epic: " ++ yaml_opt issue.epic ++ "\n" ++
  "blocks: " ++ yaml_array issue.blocks ++ "\n" ++
  "blocked_by: " ++ yaml_array issue.blockedBy ++ "\n" ++
  "relates_to: " ++ yaml_array issue.relatesTo ++ "\n" ++
  "due_at: " ++ yaml_opt dueAt ++ "\n" ++
  "version: 2\n" ++
  "source_url: " ++ yaml_quote issue.sourceUrl ++ "\n" ++
  "---\n\n"

/-- Sections after the Summary section of `render_issue_markdown`
(`src/render.rs:53-93`): acceptance criteria, implementation notes,
attachments, test evidence and the comments pointer. -/
def renderTailSections (issue : IssueData) : String :=
  let description := adf_to_markdown issue.description
  let split := split_acceptance_criteria description
  let acceptanceCriteria := split.1
  let implementationNotes := split.2
  "## Acceptance Criteria\n\n" ++
  (if acceptanceCriteria.isEmpty then "- [ ] TBD\n\n"
   else String.join (acceptanceCriteria.map (fun line => line ++ "\n")) ++ "\n") ++
  "## Implementation Notes\n\n" ++
  (if (rustTrim implementationNotes).data.isEmpty then "(none)\n"
   else rustTrim implementationNotes ++ "\n") ++
  (if issue.attachments.isEmpty then ""
   else "\n" ++ String.join (issue.attachments.map (fun a =>
     "- attachment: " ++ redact_secrets a.filename ++ " (" ++ a.id ++ ")\n"))) ++
  "\n" ++
  "## Test Evidence\n\n" ++ "(none yet)\n\n" ++
  "## Comments\n\n" ++
  toString issue.comments.length ++ " comment(s). See `" ++ issue.key ++ ".comments.md`.\n"

/-- `render_issue_markdown` (`src/render.rs:9-94`): the `push_str` sequence
— front matter, then the Summary section over the redacted summary, then
the remaining sections. Redaction is applied to individual field inputs
during rendering, not to the assembled string. -/
def render_issue_markdown (issue : IssueData) : String :=
  renderFrontMatter issue ++
    ("## Summary\n\n" ++ redact_secrets (issue.summary.getD "(no summary)") ++ "\n\n") ++
    renderTailSections issue

/-- `render_issue_comments_markdown` (`src/render.rs:96-125`). -/
def render_issue_comments_markdown (issue : IssueData) : String :=
  let header := "# " ++ issue.key ++ " comments\n\n"
  if issue.comments.isEmpty then header ++ "(no comments)\n"
  else
    header ++ String.join (issue.comments.enum.map (fun pair =>
      let idx := pair.1
      let comment := pair.2
      let author := redact_secrets (comment.authorDisplayName.getD "unknown")
      let created := (normalize_iso_utc comment.created).getD "unknown"
      let body := adf_to_markdown comment.body
      "## " ++ toString (idx + 1) ++ "\n\n" ++
      "- id: " ++ comment.id.getD "" ++ "\n" ++
      "- author: " ++ author ++ "\n" ++
      "- created_at: " ++ created ++ "\n\n" ++
      (if (rustTrim body).data.isEmpty then "(empty comment)\n\n"
       else rustTrim body ++ "\n\n")))

-- ## Remote client (`src/jira.rs`): bulk search pagination

/-- Errors of the remote client (`src/jira.rs`, `enum JiraError`), plus a
model-only constructor for a scripted remote that runs out of responses. -/
inductive JiraErrModel where
  | request (msg : String)
  | http (status : Nat) (body : String)
  | decode (body : String)
  | invalidBaseUrl (raw : String)
  | scriptExhausted
deriving DecidableEq, Repr

/-- `Display` text of a remote-client error. -/
def JiraErrModel.display : JiraErrModel → String
  | .request msg => "jira request failed: " ++ msg
  | .http status body => "jira returned HTTP " ++ toString status ++ ": " ++ body
  | .decode body => "failed to decode jira response; body: " ++ body
  | .invalidBaseUrl raw => "invalid jira.base_url " ++ raw
  | .scriptExhausted => "scripted remote exhausted"

/-- One decoded page of `BulkSearchResponse` (`src/jira.rs`). -/
structure BulkPage where
  issues : List IssueData
  total : Option Nat
  isLast : Option Bool
  nextPageToken : Option String

/-- Pagination loop of `search_issues_bulk` (`src/jira.rs:408-540`) over a
scripted list of page outcomes (one entry per HTTP round trip). The
termination rule is the source's: follow a non-empty `nextPageToken` unless
`isLast`, otherwise advance `startAt` by the page count and stop when
`startAt ≥ total`, or — lacking a total — when `isLast` defaults true or
the page was empty. -/
def searchIssuesBulkGo :
    List (Except JiraErrModel BulkPage) → Nat → List IssueData →
    Except JiraErrModel (List IssueData)
  | [], _, _ => Except.error JiraErrModel.scriptExhausted
  | resp :: rest, startAt, acc =>
    match resp with
    | Except.error e => Except.error e
    | Except.ok page =>
      let all := acc ++ page.issues
      let pageCount := page.issues.length
      match page.nextPageToken with
      | some token =>
          if token = "" ∨ page.isLast = some true then Except.ok all
          else searchIssuesBulkGo rest startAt all
      | none =>
        let startAt' := startAt + pageCount
        match page.total with
        | some total =>
            if total ≤ startAt' then Except.ok all
            else searchIssuesBulkGo rest startAt' all
        | none =>
            if page.isLast.getD true ∨ pageCount = 0 then Except.ok all
            else searchIssuesBulkGo rest startAt' all

/-- `search_issues_bulk(jql, max_results)`: the sequence of page responses
the scripted remote would produce for this query and page size is consumed
by the pagination loop starting from `startAt = 0`. -/
def search_issues_bulk (pages : List (Except JiraErrModel BulkPage))
    (_jql : String) (_maxResults : Nat) : Except JiraErrModel (List IssueData) :=
  searchIssuesBulkGo pages 0 []

-- ## Sync engine (`src/warmup.rs`)

/-- `struct SyncResult` (`src/warmup.rs`). -/
structure SyncResult where
  issuesCached : Nat
  issuesSkipped : Nat
  errors : List String
deriving DecidableEq, Repr

/-- Effective JQL for one workspace pass (`src/warmup.rs:70-85`). -/
def composeJql (baseJql : String) (cursor : Option String) : String :=
  match cursor with
  | some since =>
      "(" ++ baseJql ++ ") AND updated > \"" ++ since ++ "\" ORDER BY updated DESC"
  | none => "(" ++ baseJql ++ ")"

/-- `InMemoryCache::upsert_issues_batch`: write every row to the in-memory
map (counting them), then forward the batch to persistence, discarding its
result. -/
def CacheState.upsertIssuesBatch (st : CacheState)
    (issues : List (String × String × Option String)) (now : Nat) :
    Nat × CacheState :=
  let step := fun (acc : Nat × (String → Option (CacheEntry String)))
      (row : String × String × Option String) =>
    (acc.1 + 1, mapInsert acc.2 row.1 ⟨row.2.1, now, st.issueTtl, row.2.2⟩)
  let folded := issues.foldl step (0, st.issueMarkdown)
  let st1 := { st with issueMarkdown := folded.2 }
  match st1.persistent with
  | some p => (folded.1, { st1 with persistent := some (p.upsertIssuesBatch issues now).2 })
  | none => (folded.1, st1)

/-- `InMemoryCache::upsert_issue_sidecars_batch`: sidecars are
persistence-only; without persistence the count is 0. -/
def CacheState.upsertIssueSidecarsBatch (st : CacheState)
    (sidecars : List (String × String × Option String)) (now : Nat) :
    Nat × CacheState :=
  match st.persistent with
  | some p =>
      let out := p.upsertSidecarsBatch sidecars now
      (out.1, { st with persistent := some out.2 })
  | none => (0, st)

/-- The in-place merge of `src/warmup.rs:107-115`: for each new ref, update
the `updated` field of the first listed ref with the same key, or push. -/
def mergeRefs (merged : List IssueRef) (newRefs : List IssueRef) : List IssueRef :=
  newRefs.foldl mergeOne merged
where
  /-- One `iter_mut().find(...)`-or-push step. -/
  mergeOne (acc : List IssueRef) (newRef : IssueRef) : List IssueRef :=
    if acc.any (fun item => item.key = newRef.key) then setFirst acc newRef
    else acc ++ [newRef]
  /-- Update the first ref with a matching key. -/
  setFirst : List IssueRef → IssueRef → List IssueRef
    | [], _ => []
    | item :: rest, newRef =>
        if item.key = newRef.key then { item with updated := newRef.updated } :: rest
        else item :: setFirst rest newRef

/-- Lexicographic `≤` on character lists by code point; for UTF-8 encoded
text this coincides order-wise with Rust's byte-wise `String` ordering
(UTF-8 preserves code-point order). -/
def charListLe : List Char → List Char → Bool
  | [], _ => true
  | _ :: _, [] => false
  | c :: cs, d :: ds =>
      if c.toNat = d.toNat then charListLe cs ds
      else decide (c.toNat < d.toNat)

/-- Comparator of `merged.sort_by(|a, b| a.key.cmp(&b.key))`:
ascending issue key. -/
def refKeyLe (a b : IssueRef) : Bool := charListLe a.key.data b.key.data

/-- One iteration of the workspace loop of `sync_issues`
(`src/warmup.rs:63-178`), driven by the scripted remote. Returns the cache
and running result after the pass plus whether the loop breaks
(`issues_cached ≥ budget`). -/
def syncWorkspaceStep (script : String → Nat → List (Except JiraErrModel BulkPage))
    (cache : CacheState) (result : SyncResult) (workspace baseJql : String)
    (budget : Nat) (forceFull : Bool) (now : Nat) :
    CacheState × SyncResult × Bool :=
  let cursor := if forceFull then none else cache.getSyncCursor workspace
  let jql := composeJql baseJql cursor
  let pageSize := min budget 100
  match search_issues_bulk (script jql pageSize) jql pageSize with
  | Except.error err =>
      (cache,
        { result with errors := result.errors ++
            ["sync failed for workspace " ++ workspace ++ ": " ++ err.display] },
        false)
  | Except.ok issues =>
      let latestRefs := issues.map (fun issue => IssueRef.mk issue.key issue.updated)
      let afterListing :=
        if cursor.isNone then
          cache.upsertWorkspaceIssues workspace latestRefs now
        else
          let snap := cache.getWorkspaceIssuesSnapshot workspace now
          let merged0 := match snap.1 with
            | some snapshot => snapshot.issues
            | none => []
          let merged := (mergeRefs merged0 latestRefs).mergeSort refKeyLe
          snap.2.upsertWorkspaceIssues workspace merged now
      if issues.isEmpty then
        (afterListing, { result with issuesSkipped := result.issuesSkipped + 1 }, false)
      else
        let remainingBudget := budget - result.issuesCached
        let count := min issues.length remainingBudget
        let toCache := (issues.take count).map (fun issue =>
          (issue.key, render_issue_markdown issue, issue.updated))
        let sidecars := (issues.take count).map (fun issue =>
          (issue.key, render_issue_comments_markdown issue, issue.updated))
        let batch := afterListing.upsertIssuesBatch toCache now
        let cached := batch.1
        let afterSidecars := (batch.2.upsertIssueSidecarsBatch sidecars now).2
        let result1 := { result with issuesCached := result.issuesCached + cached }
        let afterCursor := match issues.head?.bind IssueData.updated with
          | some latest => afterSidecars.setSyncCursor workspace latest
          | none => afterSidecars
        (afterCursor, result1, decide (budget ≤ result1.issuesCached))

/-- Workspace loop of `sync_issues`, breaking when a pass reports
`issues_cached ≥ budget`. -/
def syncIssuesGo (script : String → Nat → List (Except JiraErrModel BulkPage))
    (budget : Nat) (forceFull : Bool) (now : Nat) :
    List (String × String) → CacheState → SyncResult → CacheState × SyncResult
  | [], cache, result => (cache, result)
  | (workspace, baseJql) :: rest, cache, result =>
      let out := syncWorkspaceStep script cache result workspace baseJql budget forceFull now
      if out.2.2 then (out.1, out.2.1)
      else syncIssuesGo script budget forceFull now rest out.1 out.2.1

/-- `sync_issues` (`src/warmup.rs:39-181`): zero budget returns immediately;
missing persistence reports a configuration error; otherwise run the
workspace loop. -/
def sync_issues (script : String → Nat → List (Except JiraErrModel BulkPage))
    (cache : CacheState) (workspaces : List (String × String)) (budget : Nat)
    (forceFull : Bool) (now : Nat) : CacheState × SyncResult :=
  if budget = 0 then (cache, ⟨0, 0, []⟩)
  else if ¬ cache.hasPersistence then
    (cache, ⟨0, 0, ["cache.db_path must be configured for sync"]⟩)
  else
    syncIssuesGo script budget forceFull now workspaces cache ⟨0, 0, []⟩

/-- The previous listing a merge pass starts from (`src/warmup.rs:102-105`):
the in-memory snapshot's issues, or empty when no entry exists. -/
def snapshotIssues (cache : CacheState) (workspace : String) (now : Nat) :
    List IssueRef :=
  match (cache.getWorkspaceIssuesSnapshot workspace now).1 with
  | some snapshot => snapshot.issues
  | none => []

/-- Stored `workspace_issues` rows for one workspace, read back from the
configured persistence. -/
def CacheState.persistentListing (st : CacheState) (workspace : String) :
    Option (List IssueRef) :=
  match st.persistent with
  | some p => p.workspaceIssues workspace
  | none => none

/-- Minimal issue payload used by the sync-claim witnesses. -/
def mkIssue (key : String) (updated : Option String) : IssueData :=
  { key := key, project := "P", issueType := none, summary := none,
    status := none, priority := none, assignee := none, reporter := none,
    labels := [], created := none, updated := updated, parent := none,
    epic := none, blocks := [], blockedBy := [], relatesTo := [],
    dueAt := none, sourceUrl := "https://example.test/browse/" ++ key,
    attachments := [], description := Json.null, comments := [] }

/-- Scripted remote for claim C2: the server holds 2 matching issues and
serves them one per page (honouring `maxResults = 1`), advertising
`total = 2`. -/
def c2Script : String → Nat → List (Except JiraErrModel BulkPage) :=
  fun _ _ =>
    [Except.ok ⟨[mkIssue "ST-1" (some "u1")], some 2, none, none⟩,
     Except.ok ⟨[mkIssue "ST-2" (some "u2")], some 2, none, none⟩]

/-- Fresh cache with empty persistence for the C2 counterexample. -/
def c2Cache : CacheState := CacheState.withPersistence 30 30

/-- Cache for claim C3: persistence configured with sync cursor `T0` for
workspace `w`. -/
def c3Cache : CacheState :=
  { CacheState.withPersistence 30 30 with
      persistent := some { PersistentState.empty with
        cursors := mapInsert (fun _ => none) "w" "T0" } }

/-- Scripted remote for claim C3: one page whose FIRST issue lacks an
`updated` field while the second carries one. -/
def c3Script : String → Nat → List (Except JiraErrModel BulkPage) :=
  fun _ _ =>
    [Except.ok ⟨[mkIssue "A-1" none, mkIssue "A-2" (some "T1")], some 2, none, none⟩]

/-- Cache for the C4 witness: cursor `T0` and an in-memory listing holding
`ST-0` for workspace `w`. -/
def c4Cache : CacheState :=
  { workspaceTtl := 30, issueTtl := 30,
    workspaceIssues := mapInsert (fun _ => none) "w" ⟨[⟨"ST-0", some "u0"⟩], 0, 30, none⟩,
    issueMarkdown := fun _ => none,
    persistent := some { PersistentState.empty with
      cursors := mapInsert (fun _ => none) "w" "T0" },
    metrics := Metrics.new }

/-- Scripted remote for the C4 witness: one page with `ST-2` and `ST-1`
(out of key order). -/
def c4Script : String → Nat → List (Except JiraErrModel BulkPage) :=
  fun _ _ =>
    [Except.ok ⟨[mkIssue "ST-2" (some "u2"), mkIssue "ST-1" (some "u1")], some 2, none, none⟩]

-- ## Remote client retry loop (`src/jira.rs:171-216`)

/-- Outcome of one `send()` call: a transport error or an HTTP response,
carrying the status and the `Retry-After` header when present (modelled as
the header's string value; `to_str` failures are subsumed by unparsable
values, both fall back to exponential backoff). -/
inductive SendOutcome where
  | transport (msg : String)
  | http (status : Nat) (retryAfter : Option String)
deriving DecidableEq, Repr

/-- `is_retryable` (`src/jira.rs:626-628`): HTTP 429 or any 5xx. -/
def is_retryable (status : Nat) : Bool :=
  status = 429 || (500 ≤ status && status ≤ 599)

/-- Rust `str::parse::<u64>`: optional leading `+`, one or more ASCII
digits, value below 2^64. -/
def parseU64 (s : String) : Option Nat :=
  let l := match s.data with
    | '+' :: rest => rest
    | l => l
  if l.isEmpty || !l.all Char.isDigit then none
  else
    let v := l.foldl (fun acc c => acc * 10 + (c.toNat - 48)) 0
    if v < 2 ^ 64 then some v else none

/-- `retry_after_or_backoff` (`src/jira.rs:630-641`): a parsable
`Retry-After` value capped at 30 seconds, else `1 << min(attempt, 4)`
seconds. -/
def retry_after_or_backoff (retryAfter : Option String) (attempt : Nat) : Nat :=
  match retryAfter with
  | some header =>
      match parseU64 header with
      | some seconds => min seconds 30
      | none => 1 <<< min attempt 4
  | none => 1 <<< min attempt 4

/-- Observable behaviour of `request_with_retry`: the returned result, the
`api_requests` and `retries` increments, and the sleeps performed. -/
structure RetryOutput where
  result : Except JiraErrModel (Nat × Option String)
  apiRequests : Nat
  retries : Nat
  waits : List Nat
deriving DecidableEq, Repr

/-- `JiraClient::max_retries` (`src/jira.rs:165`). -/
def maxRetries : Nat := 3

/-- The `for attempt in 0..=max_retries` loop of `request_with_retry`
(`src/jira.rs:176-210`): counts one API request per attempt, returns
transport errors immediately, returns any non-retryable (or final-attempt)
response, and otherwise sleeps per `retry_after_or_backoff`, counts a
retry, and loops. `fuel` is `max_retries + 1 − attempt`, so `fuel = 1`
marks the final attempt; `fuel = 0` is the post-loop
`Err(retry loop exhausted)` the source keeps unreachable. -/
def retryLoop (send : Nat → SendOutcome) : Nat → Nat → RetryOutput
  | _, 0 =>
      ⟨Except.error (JiraErrModel.http 500 "retry loop exhausted unexpectedly"), 0, 0, []⟩
  | attempt, fuel + 1 =>
    match send attempt with
    | SendOutcome.transport msg => ⟨Except.error (JiraErrModel.request msg), 1, 0, []⟩
    | SendOutcome.http status retryAfter =>
        if ¬ is_retryable status = true ∨ fuel = 0 then
          ⟨Except.ok (status, retryAfter), 1, 0, []⟩
        else
          let wait := retry_after_or_backoff retryAfter attempt
          let rest := retryLoop send (attempt + 1) fuel
          ⟨rest.result, 1 + rest.apiRequests, 1 + rest.retries, wait :: rest.waits⟩

/-- `request_with_retry` (`src/jira.rs:171-216`). -/
def request_with_retry (send : Nat → SendOutcome) : RetryOutput :=
  retryLoop send 0 (maxRetries + 1)

/-- Scripted remote for the C6 witness: 429 with `Retry-After: 0`, then
200. -/
def c6Send : Nat → SendOutcome :=
  fun attempt => if attempt = 0 then SendOutcome.http 429 (some "0")
    else SendOutcome.http 200 none

-- ## FUSE adapter write path (`src/fs.rs:712-748`)

/-- `INO_MANUAL_REFRESH` (`src/fs.rs:27`). -/
def INO_MANUAL_REFRESH : Nat := 0x1003

/-- `INO_FULL_REFRESH` (`src/fs.rs:28`). -/
def INO_FULL_REFRESH : Nat := 0x1004

/-- Which `SyncState` trigger a write fired. -/
inductive TriggerKind where
  | manual
  | manualFull
deriving DecidableEq, Repr

/-- Result of the `write` handler: errno reply or bytes-written reply, plus
the trigger fired on the sync state, if any. -/
structure WriteOutcome where
  reply : Except Errno Nat
  trigger : Option TriggerKind
deriving DecidableEq, Repr

/-- ASCII fragment of Rust's `char::to_lowercase` on a byte. -/
def asciiLowerByte (b : Nat) : Nat := if 65 ≤ b ∧ b ≤ 90 then b + 32 else b

/-- ASCII fragment of Rust's `char::is_whitespace` on a byte. -/
def isAsciiWsByte (b : Nat) : Bool :=
  b = 32 || b = 9 || b = 10 || b = 13 || b = 11 || b = 12

/-- `str::trim` over a byte string (ASCII model). -/
def trimBytes (l : List Nat) : List Nat :=
  ((l.dropWhile isAsciiWsByte).reverse.dropWhile isAsciiWsByte).reverse

/-- Byte string of an ASCII literal. -/
def asciiBytes (s : String) : List Nat := s.data.map Char.toNat

/-- `JiraFuseFs::write` (`src/fs.rs:712-748`): only the two writable meta
inodes accept writes (`EROFS` otherwise); a non-zero offset is `EINVAL`;
the payload is decoded (`from_utf8_lossy`), lowercased and trimmed —
modelled bytewise with ASCII semantics, exact for ASCII payloads — and the
matching trigger fires exactly on `"1"` or `"true"`; the reply always
reports `written = data.len()`. -/
def fsWrite (ino : Nat) (offset : Nat) (data : List Nat) : WriteOutcome :=
  if ino ≠ INO_MANUAL_REFRESH ∧ ino ≠ INO_FULL_REFRESH then
    ⟨Except.error Errno.EROFS, none⟩
  else if offset ≠ 0 then
    ⟨Except.error Errno.EINVAL, none⟩
  else
    let content := data.map asciiLowerByte
    let trimmed := trimBytes content
    let trigger :=
      if trimmed = asciiBytes "1" ∨ trimmed = asciiBytes "true" then
        some (if ino = INO_FULL_REFRESH then TriggerKind.manualFull
          else TriggerKind.manual)
      else none
    ⟨Except.ok data.length, trigger⟩

/-- Issue for claim C8: its `parent` field is a 40-character token, exactly
the shape of the LONG_TOKEN redaction pattern. -/
def c8Issue : IssueData :=
  { mkIssue "ST-7" none with parent := some "aaaaaaaaaaaaaaaaaaaaaaaaaaaaaaaaaaaaaaaa" }

-- ### C9 definitions

/-- ASCII lowercase letter test. -/
def isUrlLower (c : Char) : Bool := 97 ≤ c.toNat && c.toNat ≤ 122

/-- ASCII digit test. -/
def isUrlDigit (c : Char) : Bool := 48 ≤ c.toNat && c.toNat ≤ 57

/-- Canonical host characters of the URL model: what the `url` crate's host
parser leaves unchanged (lowercase ASCII letters, digits, `-`, `.`, `_`). -/
def isHostCanon (c : Char) : Bool :=
  isUrlLower c || isUrlDigit c || c = '-' || c = '.' || c = '_'

/-- The ASCII uppercase-to-lowercase table used by the host parser
(IDNA/domain-to-ASCII restricted to ASCII letters). -/
def asciiUpperLower : List (Char × Char) :=
  [('A','a'),('B','b'),('C','c'),('D','d'),('E','e'),('F','f'),('G','g'),
   ('H','h'),('I','i'),('J','j'),('K','k'),('L','l'),('M','m'),('N','n'),
   ('O','o'),('P','p'),('Q','q'),('R','r'),('S','s'),('T','t'),('U','u'),
   ('V','v'),('W','w'),('X','x'),('Y','y'),('Z','z')]

/-- One host character as the WHATWG host parser canonicalises it: ASCII
uppercase is lowercased, canonical characters pass through, anything else is
outside the model (`none`). -/
def hostCharLower (c : Char) : Option Char :=
  match asciiUpperLower.find? (fun p => p.1 = c) with
  | some p => some p.2
  | none => if isHostCanon c then some c else none

/-- Host canonicalisation, character by character. -/
def hostLower : List Char → Option (List Char)
  | [] => some []
  | c :: cs =>
    match hostCharLower c, hostLower cs with
    | some c', some cs' => some (c' :: cs')
    | _, _ => none

/-- Characters the URL model admits in a path: `/` plus unreserved
characters other than `.` (dot segments would be resolved by the parser and
are outside the model). Case is preserved in paths. -/
def isUrlPathChar (c : Char) : Bool :=
  c = '/' || isUrlLower c || isUrlDigit c ||
    (65 ≤ c.toNat && c.toNat ≤ 90) || c = '-' || c = '_' || c = '~'

/-- Split at the first `/`: authority part and the rest (which is empty or
starts with `/`). -/
def splitAtSlash : List Char → List Char × List Char
  | [] => ([], [])
  | c :: cs =>
    if c = '/' then ([], c :: cs)
    else
      let p := splitAtSlash cs
      (c :: p.1, p.2)

/-- Split the authority at the first `:`: host part and the optional port
text after the colon. -/
def splitAtColon : List Char → List Char × Option (List Char)
  | [] => ([], none)
  | c :: cs =>
    if c = ':' then ([], some cs)
    else
      let p := splitAtColon cs
      (c :: p.1, p.2)

/-- A port is inside the model only when absent or empty (the WHATWG parser
drops an empty port). -/
def portOk : Option (List Char) → Bool
  | none => true
  | some [] => true
  | some (_ :: _) => false

/-- Authority-and-path step of `url::Url::parse` followed by serialisation,
for a given scheme text `p` (`"https://"` or `"http://"`) and the text `r`
after it: authority up to the first `/`, host split from an optional port at
the first `:`, host canonicalised, empty path serialised as `/`. -/
def urlSerializeTail (p : List Char) (r : List Char) : Option String :=
  match hostLower (splitAtColon (splitAtSlash r).1).1 with
  | none => none
  | some host =>
    if host = [] then none
    else if portOk (splitAtColon (splitAtSlash r).1).2 = false then none
    else if (splitAtSlash r).2.all isUrlPathChar then
      some (String.mk (p ++ host ++
        (if (splitAtSlash r).2 = [] then ['/'] else (splitAtSlash r).2)))
    else none

/-- `reqwest::Url::parse` followed by `.as_str()`, modelled on the fragment
of WHATWG URLs the normaliser can produce: literal lowercase `http`/`https`
scheme, no userinfo, no (or empty) port, ASCII host, plain path, no query or
fragment; `none` outside the fragment. -/
def urlParseSerialize (s : String) : Option String :=
  if startsWithStr s "https://" then urlSerializeTail ("https://").data (s.data.drop 8)
  else if startsWithStr s "http://" then urlSerializeTail ("http://").data (s.data.drop 7)
  else none

/-- Drop every trailing `/` of a character list (Rust
`str::trim_end_matches('/')`). -/
def stripSlashes (l : List Char) : List Char :=
  (l.reverse.dropWhile (fun c => c = '/')).reverse

/-- Rust `str::trim_end_matches('/')`. -/
def trimEndSlashes (s : String) : String := String.mk (stripSlashes s.data)

/-- Rust `str::trim_start_matches(pre)`: strip every leading occurrence of
`pre`; `fuel` is instantiated with the length of the list, which bounds the
number of occurrences. -/
def dropAllPreGo (pre : List Char) : Nat → List Char → List Char
  | 0, l => l
  | fuel + 1, l =>
    if l.take pre.length = pre then dropAllPreGo pre fuel (l.drop pre.length) else l

/-- Typo-fixing candidate construction of `normalize_base_url`
(`src/jira.rs:605-619`): collapse the doubled-scheme typos
`https://https//` / `http://http//` (`replacen` with count 1, guarded by
`starts_with`), then turn the `https//` / `http//` typos into a real scheme
(`trim_start_matches` strips every leading occurrence) and otherwise prepend
`https://` when no scheme is present. -/
def normalizeCandidate (trimmed : String) : String :=
  let c1 :=
    if startsWithStr trimmed "https://https//" then
      String.mk (("https://").data ++ trimmed.data.drop 15)
    else if startsWithStr trimmed "http://http//" then
      String.mk (("http://").data ++ trimmed.data.drop 13)
    else trimmed
  if startsWithStr c1 "https//" then
    String.mk (("https://").data ++ dropAllPreGo ("https//").data c1.data.length c1.data)
  else if startsWithStr c1 "http//" then
    String.mk (("http://").data ++ dropAllPreGo ("http//").data c1.data.length c1.data)
  else if startsWithStr c1 "https://" = false ∧ startsWithStr c1 "http://" = false then
    String.mk (("https://").data ++ c1.data)
  else c1

/-- `normalize_base_url` (`src/jira.rs:599-624`): trim, reject empty, fix
the known scheme typos, parse as a URL and strip trailing `/`s from the
serialisation. The error payload is the raw input
(`JiraError::InvalidBaseUrl`). -/
def normalize_base_url (raw : String) : Except String String :=
  if rustTrim raw = "" then Except.error raw
  else
    match urlParseSerialize (normalizeCandidate (rustTrim raw)) with
    | none => Except.error raw
    | some v => Except.ok (trimEndSlashes v)


-- ### Theorems

/-- Helper: a `get_issue` returning no row means the `issues` table has no
row for the key. -/
theorem PersistentState.getIssue_fst_none {p : PersistentState} {k : String}
    {q : PersistentState} (h : p.getIssue k = (none, q)) : p.issues k = none := by
  unfold PersistentState.getIssue at h
  rcases hq : p.issues k with _ | row
  · rfl
  · rw [hq] at h
    simp at h

/-- C1 counterexample: the in-memory map holds a FRESH entry for `PROJ-1`
and the fetch closure fails, yet `stale_served` is not incremented (the
read returns through the hit path, bumping `cache_hits` instead), contrary
to the claim that any memory entry plus a fetch error bumps `stale_served`. -/
theorem c1_fresh_entry_no_stale_served :
    (c1FreshState.issueMarkdown "PROJ-1").isSome = true ∧
    (c1FreshState.getIssueMarkdownStaleSafe "PROJ-1" 5 (Except.error "boom")).1 =
      Except.ok "v1" ∧
    ((c1FreshState.getIssueMarkdownStaleSafe "PROJ-1" 5
        (Except.error "boom")).2).metrics.staleServed = 0 ∧
    ((c1FreshState.getIssueMarkdownStaleSafe "PROJ-1" 5
        (Except.error "boom")).2).metrics.cacheHits = 1 :=
  ⟨rfl, rfl, rfl, rfl⟩

/-- C1 (amended): `get_issue_markdown_stale_safe` returns the existing
entry's bytes whenever the in-memory map holds an entry; it increments
`stale_served` on a fetch error exactly when that entry is stale (with a
fresh entry the hit path answers and `fetch` is never consulted, bumping
`cache_hits`); and a fetch error reaches the caller only when the map has
no entry and, with persistence configured, the persistent lookup also
found no row. With TTL = 0 every entry is stale, so a fetch failure always
serves the previous bytes with `stale_served` incremented. -/
theorem c1_stale_safe_read_policy {ε : Type} (st : CacheState) (key : String)
    (now : Nat) (fetch : Except ε (String × Option String)) :
    (∀ entry, st.issueMarkdown key = some entry →
      (now - entry.cachedAt < entry.ttl →
        (st.getIssueMarkdownStaleSafe key now fetch).1 = Except.ok entry.value ∧
        ((st.getIssueMarkdownStaleSafe key now fetch).2).metrics.cacheHits =
          st.metrics.cacheHits + 1 ∧
        ((st.getIssueMarkdownStaleSafe key now fetch).2).metrics.staleServed =
          st.metrics.staleServed) ∧
      (entry.ttl ≤ now - entry.cachedAt → ∀ e : ε, fetch = Except.error e →
        (st.getIssueMarkdownStaleSafe key now fetch).1 = Except.ok entry.value ∧
        ((st.getIssueMarkdownStaleSafe key now fetch).2).metrics.staleServed =
          st.metrics.staleServed + 1)) ∧
    (∀ e : ε, (st.getIssueMarkdownStaleSafe key now fetch).1 = Except.error e →
      st.issueMarkdown key = none ∧
      (∀ p, st.persistent = some p → p.issues key = none) ∧
      fetch = Except.error e) := by
  constructor
  · intro entry hentry
    constructor
    · intro hlt
      simp only [CacheState.getIssueMarkdownStaleSafe, hentry, if_pos hlt]
      simp [Metrics.incCacheHit]
    · intro hstale e hfetch
      have hlt : ¬ (now - entry.cachedAt < entry.ttl) := not_lt.mpr hstale
      simp only [CacheState.getIssueMarkdownStaleSafe, hentry, if_neg hlt,
        CacheState.getIssueMarkdownStaleSafe.afterMiss, hfetch]
      simp [Metrics.incCacheMiss, Metrics.incStaleServed]
  · intro e herr
    simp only [CacheState.getIssueMarkdownStaleSafe,
      CacheState.getIssueMarkdownStaleSafe.afterMiss,
      CacheState.getIssueMarkdownStaleSafe.storeFresh] at herr
    repeat' split at herr
    all_goals try simp_all
    all_goals exact PersistentState.getIssue_fst_none (by assumption)

/-- C1 witness: with `c1StaleState` (TTL 0, so the entry is stale at
`now = 0`) and a failing fetch, the amended theorem yields the previous
bytes with `stale_served` incremented. -/
theorem c1_stale_safe_read_policy_witness :
    (c1StaleState.getIssueMarkdownStaleSafe "PROJ-1" 0
      (Except.error "down")).1 = Except.ok "old" ∧
    ((c1StaleState.getIssueMarkdownStaleSafe "PROJ-1" 0
      (Except.error "down")).2).metrics.staleServed = 1 :=
  ((c1_stale_safe_read_policy (ε := String) c1StaleState "PROJ-1" 0
      (Except.error "down")).1 ⟨"old", 0, 0, some "same"⟩ rfl).2
    (Nat.le_refl 0) "down" rfl

/-- C5 counterexample: with both the in-memory cache and persistence empty
for `ST-1`, a read of `ST-1.md` returns the source's placeholder, whose
bytes differ from the placeholder quoted by the claim: the code wraps
`.sync_meta/manual_refresh` in backticks. -/
theorem c5_placeholder_differs_from_spec :
    (issueBytes c5EmptyState "ST-1" 0).1 = issuePlaceholder "ST-1" ∧
    (issueBytes c5EmptyState "ST-1" 0).1 ≠ specIssuePlaceholder "ST-1" := by
  refine ⟨rfl, ?_⟩
  decide

/-- C5 (amended): whenever the in-memory cache has no entry for the key and
persistence (when configured) has no row either, `issue_bytes` returns
exactly `"# KEY\n\nNot yet available in local cache. Wait for sync interval
or trigger manual refresh via ` + backtick + `.sync_meta/manual_refresh` +
backtick + `.\n"`, i.e. the source placeholder with the path in backticks. -/
theorem c5_placeholder_exact (st : CacheState) (key : String) (now : Nat)
    (hmem : st.issueMarkdown key = none)
    (hper : ∀ p, st.persistent = some p → p.issues key = none) :
    (issueBytes st key now).1 = issuePlaceholder key := by
  unfold issueBytes
  rcases hp : st.persistent with _ | p
  · simp only [CacheState.getIssueMarkdownStaleSafe, hmem, hp,
      CacheState.getIssueMarkdownStaleSafe.afterMiss]
  · have hrow := hper p hp
    simp only [CacheState.getIssueMarkdownStaleSafe, hmem, hp,
      PersistentState.getIssue, hrow,
      CacheState.getIssueMarkdownStaleSafe.afterMiss]

/-- C5 witness: the amended placeholder theorem applied to the concrete
empty cache-with-persistence state. -/
theorem c5_placeholder_exact_witness :
    (issueBytes c5EmptyState "ST-1" 0).1 = issuePlaceholder "ST-1" :=
  c5_placeholder_exact c5EmptyState "ST-1" 0 rfl (fun p hp => by
    cases hp; rfl)

-- #### Preservation lemmas for the sync-engine state

/-- Issue-batch upserts leave the `sync_cursor` table unchanged. -/
theorem PersistentState.upsertIssuesBatch_cursors (rows) (p : PersistentState) (now : Nat) :
    ((p.upsertIssuesBatch rows now).2).cursors = p.cursors := by
  induction rows generalizing p with
  | nil => rfl
  | cons row rest ih =>
      obtain ⟨key, md, upd⟩ := row
      simpa [PersistentState.upsertIssuesBatch, PersistentState.upsertIssue]
        using ih (p.upsertIssue key md upd now)

/-- Issue-batch upserts leave the `workspace_issues` table unchanged. -/
theorem PersistentState.upsertIssuesBatch_workspaceIssues (rows) (p : PersistentState)
    (now : Nat) :
    ((p.upsertIssuesBatch rows now).2).workspaceIssues = p.workspaceIssues := by
  induction rows generalizing p with
  | nil => rfl
  | cons row rest ih =>
      obtain ⟨key, md, upd⟩ := row
      simpa [PersistentState.upsertIssuesBatch, PersistentState.upsertIssue]
        using ih (p.upsertIssue key md upd now)

/-- Sidecar-batch upserts leave the `sync_cursor` table unchanged. -/
theorem PersistentState.upsertSidecarsBatch_cursors (rows) (p : PersistentState)
    (now : Nat) :
    ((p.upsertSidecarsBatch rows now).2).cursors = p.cursors := by
  induction rows generalizing p with
  | nil => rfl
  | cons row rest ih =>
      obtain ⟨key, md, upd⟩ := row
      simpa [PersistentState.upsertSidecarsBatch] using
        ih { p with sidecars := mapInsert p.sidecars key ⟨md, upd, now⟩ }

/-- Sidecar-batch upserts leave the `workspace_issues` table unchanged. -/
theorem PersistentState.upsertSidecarsBatch_workspaceIssues (rows) (p : PersistentState)
    (now : Nat) :
    ((p.upsertSidecarsBatch rows now).2).workspaceIssues = p.workspaceIssues := by
  induction rows generalizing p with
  | nil => rfl
  | cons row rest ih =>
      obtain ⟨key, md, upd⟩ := row
      simpa [PersistentState.upsertSidecarsBatch] using
        ih { p with sidecars := mapInsert p.sidecars key ⟨md, upd, now⟩ }

/-- The cache-level issue batch neither moves the sync cursor nor the
workspace listings (memory or persisted). -/
theorem CacheState.upsertIssuesBatch_preserves (st : CacheState) (rows) (now w) :
    ((st.upsertIssuesBatch rows now).2).getSyncCursor w = st.getSyncCursor w ∧
    ((st.upsertIssuesBatch rows now).2).workspaceIssues = st.workspaceIssues ∧
    ((st.upsertIssuesBatch rows now).2).persistentListing w = st.persistentListing w := by
  rcases hp : st.persistent with _ | p <;>
    simp [CacheState.upsertIssuesBatch, CacheState.getSyncCursor,
      CacheState.persistentListing, hp, PersistentState.upsertIssuesBatch_cursors,
      PersistentState.upsertIssuesBatch_workspaceIssues]

/-- The cache-level sidecar batch neither moves the sync cursor nor the
workspace listings. -/
theorem CacheState.upsertIssueSidecarsBatch_preserves (st : CacheState) (rows) (now w) :
    ((st.upsertIssueSidecarsBatch rows now).2).getSyncCursor w = st.getSyncCursor w ∧
    ((st.upsertIssueSidecarsBatch rows now).2).workspaceIssues = st.workspaceIssues ∧
    ((st.upsertIssueSidecarsBatch rows now).2).persistentListing w =
      st.persistentListing w := by
  rcases hp : st.persistent with _ | p <;>
    simp [CacheState.upsertIssueSidecarsBatch, CacheState.getSyncCursor,
      CacheState.persistentListing, hp, PersistentState.upsertSidecarsBatch_cursors,
      PersistentState.upsertSidecarsBatch_workspaceIssues]

/-- Writing the sync cursor leaves the workspace listings unchanged and,
with persistence configured, stores the new value. -/
theorem CacheState.setSyncCursor_spec (st : CacheState) (w v : String) :
    (st.setSyncCursor w v).workspaceIssues = st.workspaceIssues ∧
    (st.setSyncCursor w v).persistentListing w = st.persistentListing w ∧
    (st.persistent.isSome → (st.setSyncCursor w v).getSyncCursor w = some v) := by
  rcases hp : st.persistent with _ | p <;>
    simp [CacheState.setSyncCursor, CacheState.getSyncCursor,
      CacheState.persistentListing, PersistentState.setSyncCursor, hp, mapInsert]

/-- Taking a workspace snapshot only bumps metrics. -/
theorem CacheState.getWorkspaceIssuesSnapshot_snd (st : CacheState) (w : String)
    (now : Nat) :
    ((st.getWorkspaceIssuesSnapshot w now).2).workspaceIssues = st.workspaceIssues ∧
    ((st.getWorkspaceIssuesSnapshot w now).2).persistent = st.persistent ∧
    ((st.getWorkspaceIssuesSnapshot w now).2).workspaceTtl = st.workspaceTtl := by
  unfold CacheState.getWorkspaceIssuesSnapshot
  rcases st.workspaceIssues w with _ | entry
  · simp
  · refine ⟨?_, ?_, ?_⟩ <;> (simp only; split <;> simp)

/-- Replacing a workspace listing preserves the sync cursor and writes the
given refs to memory and — when persistence is configured and the keys are
distinct — to the `workspace_issues` table. -/
theorem CacheState.upsertWorkspaceIssues_spec (st : CacheState) (w : String)
    (refs : List IssueRef) (now : Nat) :
    (st.upsertWorkspaceIssues w refs now).getSyncCursor w = st.getSyncCursor w ∧
    (st.upsertWorkspaceIssues w refs now).workspaceIssues w =
      some ⟨refs, now, st.workspaceTtl, none⟩ ∧
    (st.upsertWorkspaceIssues w refs now).persistent.isSome = st.persistent.isSome ∧
    (st.persistent.isSome → (refs.map IssueRef.key).Nodup →
      (st.upsertWorkspaceIssues w refs now).persistentListing w = some refs) := by
  rcases hp : st.persistent with _ | p <;>
    simp only [CacheState.upsertWorkspaceIssues, CacheState.getSyncCursor,
      CacheState.persistentListing, PersistentState.upsertWorkspaceIssueRefs, hp,
      mapInsert] <;> simp
  constructor
  · split <;> simp
  · intro hnodup
    simp [hnodup, mapInsert]

/-- Generic count of a fold that increments its first component per row. -/
theorem foldl_pair_count {α β : Type} (f : Nat × β → α → β) (rs : List α) (n : Nat)
    (b : β) :
    (rs.foldl (fun acc r => (acc.1 + 1, f acc r)) (n, b)).1 = n + rs.length := by
  induction rs generalizing n b with
  | nil => simp
  | cons r rest ih => simp [ih]; omega

/-- `upsert_issues_batch` reports one cached row per batch row. -/
theorem CacheState.upsertIssuesBatch_count (st : CacheState)
    (rows : List (String × String × Option String)) (now : Nat) :
    (st.upsertIssuesBatch rows now).1 = rows.length := by
  have h := foldl_pair_count
    (fun (acc : Nat × (String → Option (CacheEntry String)))
        (row : String × String × Option String) =>
      mapInsert acc.2 row.1 ⟨row.2.1, now, st.issueTtl, row.2.2⟩)
    rows 0 st.issueMarkdown
  simp only [CacheState.upsertIssuesBatch]
  split <;> simpa using h

/-- C2 (amended): a workspace pass issues exactly one `search_issues_bulk`
call with page size `min(budget, 100)`; whatever that call returns — its
internal pagination loop may fetch several pages, so the result is not
bounded by the page size — the pass renders and batch-upserts exactly
`min(page length, budget − already cached)` issues, so the budget caps
caching, not fetching. -/
theorem c2_bulk_call_page_size_caps_caching
    (script : String → Nat → List (Except JiraErrModel BulkPage))
    (cache : CacheState) (result : SyncResult) (workspace baseJql : String)
    (budget : Nat) (forceFull : Bool) (now : Nat) (issues : List IssueData)
    (hsearch : search_issues_bulk
        (script (composeJql baseJql
          (if forceFull then none else cache.getSyncCursor workspace)) (min budget 100))
        (composeJql baseJql
          (if forceFull then none else cache.getSyncCursor workspace))
        (min budget 100) = Except.ok issues) :
    (syncWorkspaceStep script cache result workspace baseJql budget
        forceFull now).2.1.issuesCached =
      result.issuesCached + min issues.length (budget - result.issuesCached) := by
  simp only [syncWorkspaceStep, hsearch]
  by_cases hemp : issues.isEmpty
  · have : issues = [] := List.isEmpty_iff.mp hemp
    simp [hemp, this]
  · simp only [hemp, Bool.false_eq_true, if_false, CacheState.upsertIssuesBatch_count]
    simp only [List.length_take, List.length_map]
    omega

/-- C2 witness: with a 2-issue remote served one per page and budget 1, the
amended theorem reports exactly `0 + min 2 (1 − 0) = 1` issue cached. -/
theorem c2_bulk_call_page_size_caps_caching_witness :
    (syncWorkspaceStep c2Script c2Cache ⟨0, 0, []⟩ "w" "q" 1 false 0).2.1.issuesCached =
      0 + min 2 (1 - 0) :=
  c2_bulk_call_page_size_caps_caching c2Script c2Cache ⟨0, 0, []⟩ "w" "q" 1 false 0
    [mkIssue "ST-1" (some "u1"), mkIssue "ST-2" (some "u2")] rfl

/-- C2 counterexample: the same pass OBTAINS 2 issues from the remote —
`search_issues_bulk` followed the `total`-based pagination across two pages
— although `min(budget, 100) = 1`; the workspace listing receives both
keys while only 1 issue is cached. This refutes "pagination beyond the
first page is not used" and "at most min(budget, 100) issues are obtained
from the remote per workspace per pass". -/
theorem c2_pagination_used_beyond_page_size :
    (search_issues_bulk (c2Script "(q)" (min 1 100)) "(q)" (min 1 100)).map
      List.length = Except.ok 2 ∧
    ¬ (2 ≤ min 1 100) ∧
    (((sync_issues c2Script c2Cache [("w", "q")] 1 false 0).1.workspaceIssues
        "w").map (fun e => e.value.length)) = some 2 ∧
    (sync_issues c2Script c2Cache [("w", "q")] 1 false 0).2.issuesCached = 1 :=
  ⟨rfl, by decide, rfl, rfl⟩

/-- Helper for C10: one workspace pass never pushes `issues_cached` past the
budget. -/
theorem syncWorkspaceStep_cached_le
    (script : String → Nat → List (Except JiraErrModel BulkPage))
    (cache : CacheState) (result : SyncResult) (workspace baseJql : String)
    (budget : Nat) (forceFull : Bool) (now : Nat)
    (h : result.issuesCached ≤ budget) :
    (syncWorkspaceStep script cache result workspace baseJql budget
        forceFull now).2.1.issuesCached ≤ budget := by
  simp only [syncWorkspaceStep]
  split
  · exact h
  · split
    · exact h
    · simp only [CacheState.upsertIssuesBatch_count]
      simp only [List.length_take, List.length_map]
      omega

/-- Helper for C10: the workspace loop keeps `issues_cached ≤ budget`. -/
theorem syncIssuesGo_cached_le
    (script : String → Nat → List (Except JiraErrModel BulkPage))
    (budget : Nat) (forceFull : Bool) (now : Nat)
    (workspaces : List (String × String)) (cache : CacheState) (result : SyncResult)
    (h : result.issuesCached ≤ budget) :
    (syncIssuesGo script budget forceFull now workspaces cache result).2.issuesCached ≤
      budget := by
  induction workspaces generalizing cache result with
  | nil => exact h
  | cons ws rest ih =>
      obtain ⟨workspace, baseJql⟩ := ws
      simp only [syncIssuesGo]
      have hstep := syncWorkspaceStep_cached_le script cache result workspace baseJql
        budget forceFull now h
      split
      · exact hstep
      · exact ih _ _ hstep

/-- Replacing a workspace listing never moves any sync cursor. -/
theorem CacheState.upsertWorkspaceIssues_getSyncCursor (st : CacheState) (w : String)
    (refs : List IssueRef) (now : Nat) (w' : String) :
    (st.upsertWorkspaceIssues w refs now).getSyncCursor w' = st.getSyncCursor w' := by
  rcases hp : st.persistent with _ | p <;>
    simp only [CacheState.upsertWorkspaceIssues, CacheState.getSyncCursor, hp,
      PersistentState.upsertWorkspaceIssueRefs]
  split <;> simp

/-- Taking a workspace snapshot never moves any sync cursor. -/
theorem CacheState.getWorkspaceIssuesSnapshot_getSyncCursor (st : CacheState)
    (w : String) (now : Nat) (w' : String) :
    ((st.getWorkspaceIssuesSnapshot w now).2).getSyncCursor w' = st.getSyncCursor w' := by
  have h := (CacheState.getWorkspaceIssuesSnapshot_snd st w now).2.1
  unfold CacheState.getSyncCursor
  rw [h]

/-- Issue-batch upserts keep persistence configured. -/
theorem CacheState.upsertIssuesBatch_isSome (st : CacheState) (rows) (now : Nat) :
    ((st.upsertIssuesBatch rows now).2).persistent.isSome = st.persistent.isSome := by
  rcases hp : st.persistent with _ | p <;> simp [CacheState.upsertIssuesBatch, hp]

/-- Sidecar-batch upserts keep persistence configured. -/
theorem CacheState.upsertIssueSidecarsBatch_isSome (st : CacheState) (rows)
    (now : Nat) :
    ((st.upsertIssueSidecarsBatch rows now).2).persistent.isSome =
      st.persistent.isSome := by
  rcases hp : st.persistent with _ | p <;>
    simp [CacheState.upsertIssueSidecarsBatch, hp]

/-- C3 (amended): after a workspace pass whose bulk search succeeded, the
sync cursor equals the FIRST returned issue's `updated` value when that
first issue carries one (`issues.first().and_then(...)`), and is otherwise
left unchanged — even when a later issue of the page does carry an
`updated` field. -/
theorem c3_cursor_follows_first_issue
    (script : String → Nat → List (Except JiraErrModel BulkPage))
    (cache : CacheState) (result : SyncResult) (workspace baseJql : String)
    (budget : Nat) (forceFull : Bool) (now : Nat) (issues : List IssueData)
    (hpers : cache.persistent.isSome = true)
    (hsearch : search_issues_bulk
        (script (composeJql baseJql
          (if forceFull then none else cache.getSyncCursor workspace)) (min budget 100))
        (composeJql baseJql
          (if forceFull then none else cache.getSyncCursor workspace))
        (min budget 100) = Except.ok issues) :
    ((syncWorkspaceStep script cache result workspace baseJql budget
        forceFull now).1).getSyncCursor workspace =
      match issues.head?.bind IssueData.updated with
      | some t => some t
      | none => cache.getSyncCursor workspace := by
  simp only [syncWorkspaceStep, hsearch]
  by_cases hemp : issues.isEmpty
  · have hnil : issues = [] := List.isEmpty_iff.mp hemp
    subst hnil
    simp only [hemp, if_true, List.head?_nil, Option.bind_none, Option.none_bind]
    repeat' split
    all_goals first
      | exact CacheState.upsertWorkspaceIssues_getSyncCursor _ workspace _ now workspace
      | rw [CacheState.upsertWorkspaceIssues_getSyncCursor,
          CacheState.getWorkspaceIssuesSnapshot_getSyncCursor]
  · have hALcursor : ∀ (st' : CacheState), st' =
        (if (if forceFull then none else cache.getSyncCursor workspace).isNone = true then
          cache.upsertWorkspaceIssues workspace
            (issues.map fun issue => IssueRef.mk issue.key issue.updated) now
        else
          ((cache.getWorkspaceIssuesSnapshot workspace now).2).upsertWorkspaceIssues
            workspace
            ((mergeRefs
              (match (cache.getWorkspaceIssuesSnapshot workspace now).1 with
                | some snapshot => snapshot.issues
                | none => [])
              (issues.map fun issue => IssueRef.mk issue.key issue.updated)).mergeSort
              refKeyLe) now) →
        st'.getSyncCursor workspace = cache.getSyncCursor workspace ∧
        st'.persistent.isSome = true := by
      intro st' hst'
      subst hst'
      constructor
      · repeat' split
        all_goals first
          | exact CacheState.upsertWorkspaceIssues_getSyncCursor _ workspace _ now
              workspace
          | rw [CacheState.upsertWorkspaceIssues_getSyncCursor,
              CacheState.getWorkspaceIssuesSnapshot_getSyncCursor]
      · repeat' split
        all_goals first
          | (rw [(CacheState.upsertWorkspaceIssues_spec _ workspace _ now).2.2.1]
             exact hpers)
          | (rw [(CacheState.upsertWorkspaceIssues_spec _ workspace _ now).2.2.1,
               (CacheState.getWorkspaceIssuesSnapshot_snd cache workspace now).2.1]
             exact hpers)
    simp only [hemp, Bool.false_eq_true, if_false]
    obtain ⟨hcur, hsome⟩ := hALcursor _ rfl
    generalize hAL :
      (if (if forceFull then none else cache.getSyncCursor workspace).isNone = true then
        cache.upsertWorkspaceIssues workspace
          (issues.map fun issue => IssueRef.mk issue.key issue.updated) now
      else
        ((cache.getWorkspaceIssuesSnapshot workspace now).2).upsertWorkspaceIssues
          workspace
          ((mergeRefs
            (match (cache.getWorkspaceIssuesSnapshot workspace now).1 with
              | some snapshot => snapshot.issues
              | none => [])
            (issues.map fun issue => IssueRef.mk issue.key issue.updated)).mergeSort
            refKeyLe) now) = afterListing at hcur hsome ⊢
    have hb1 := (CacheState.upsertIssuesBatch_preserves afterListing
      ((issues.take (min issues.length (budget - result.issuesCached))).map fun issue =>
        (issue.key, render_issue_markdown issue, issue.updated)) now workspace).1
    have hb1some := CacheState.upsertIssuesBatch_isSome afterListing
      ((issues.take (min issues.length (budget - result.issuesCached))).map fun issue =>
        (issue.key, render_issue_markdown issue, issue.updated)) now
    generalize hB1 : (afterListing.upsertIssuesBatch
      ((issues.take (min issues.length (budget - result.issuesCached))).map fun issue =>
        (issue.key, render_issue_markdown issue, issue.updated)) now).2 = afterBatch
      at hb1 hb1some ⊢
    have hb2 := (CacheState.upsertIssueSidecarsBatch_preserves afterBatch
      ((issues.take (min issues.length (budget - result.issuesCached))).map fun issue =>
        (issue.key, render_issue_comments_markdown issue, issue.updated)) now
      workspace).1
    have hb2some := CacheState.upsertIssueSidecarsBatch_isSome afterBatch
      ((issues.take (min issues.length (budget - result.issuesCached))).map fun issue =>
        (issue.key, render_issue_comments_markdown issue, issue.updated)) now
    generalize hB2 : (afterBatch.upsertIssueSidecarsBatch
      ((issues.take (min issues.length (budget - result.issuesCached))).map fun issue =>
        (issue.key, render_issue_comments_markdown issue, issue.updated)) now).2 =
      afterSidecars at hb2 hb2some ⊢
    have hcursors : afterSidecars.getSyncCursor workspace = cache.getSyncCursor workspace := by
      rw [hb2, hb1, hcur]
    have hsome' : afterSidecars.persistent.isSome = true := by
      rw [hb2some, hb1some, hsome]
    split
    · rename_i t hup
      exact (CacheState.setSyncCursor_spec afterSidecars workspace t).2.2 hsome'
    · exact hcursors

unseal List.merge List.mergeSort in
/-- C3 counterexample: the incremental pass for workspace `w` (cursor `T0`)
returns a non-empty page whose issues carry `updated` values
`[none, some "T1"]` — so the page contains an issue with an `updated`
field — yet after the batch writes the cursor still reads `T0`: the code
sets the cursor only when the FIRST issue has `updated`
(`issues.first().and_then(...)`, `src/warmup.rs:155`). -/
theorem c3_first_issue_without_updated_leaves_cursor :
    (search_issues_bulk (c3Script (composeJql "q" (some "T0")) (min 5 100))
        (composeJql "q" (some "T0")) (min 5 100)).map
      (fun l => l.map IssueData.updated) = Except.ok [none, some "T1"] ∧
    (sync_issues c3Script c3Cache [("w", "q")] 5 false 0).1.getSyncCursor "w" =
      some "T0" ∧
    (sync_issues c3Script c3Cache [("w", "q")] 5 false 0).2.issuesCached = 2 ∧
    some "T0" ≠ (some "T1" : Option String) :=
  ⟨rfl, rfl, rfl, by decide⟩

/-- C3 witness: the amended cursor theorem applied to the concrete pass
whose first issue lacks `updated`: the cursor stays `T0`. -/
theorem c3_cursor_follows_first_issue_witness :
    (syncWorkspaceStep c3Script c3Cache ⟨0, 0, []⟩ "w" "q" 5 false
      0).1.getSyncCursor "w" = some "T0" := by
  have h := c3_cursor_follows_first_issue c3Script c3Cache ⟨0, 0, []⟩ "w" "q" 5 false 0
    [mkIssue "A-1" none, mkIssue "A-2" (some "T1")] rfl rfl
  simpa using h

/-- The key comparator is total. -/
theorem charListLe_total (a b : List Char) :
    (charListLe a b || charListLe b a) = true := by
  induction a generalizing b with
  | nil => simp [charListLe]
  | cons c cs ih =>
      cases b with
      | nil => simp [charListLe]
      | cons d ds =>
          simp only [charListLe]
          by_cases h : c.toNat = d.toNat
          · simpa [h] using ih ds
          · have h' : ¬ d.toNat = c.toNat := fun e => h e.symm
            simp only [h, h', if_false]
            simp only [decide_eq_true_eq, Bool.or_eq_true]
            omega

/-- The key comparator is transitive. -/
theorem charListLe_trans (a b c : List Char) (hab : charListLe a b = true)
    (hbc : charListLe b c = true) : charListLe a c = true := by
  induction a generalizing b c with
  | nil => rfl
  | cons x xs ih =>
      cases b with
      | nil => simp [charListLe] at hab
      | cons y ys =>
          cases c with
          | nil => simp [charListLe] at hbc
          | cons z zs =>
              simp only [charListLe] at hab hbc ⊢
              by_cases hxy : x.toNat = y.toNat <;> by_cases hyz : y.toNat = z.toNat
              · rw [if_pos hxy] at hab
                rw [if_pos hyz] at hbc
                rw [if_pos (hxy.trans hyz)]
                exact ih ys zs hab hbc
              · rw [if_pos hxy] at hab
                rw [if_neg hyz] at hbc
                simp only [decide_eq_true_eq] at hbc
                have hxz : ¬ x.toNat = z.toNat := by omega
                rw [if_neg hxz]
                simp only [decide_eq_true_eq]
                omega
              · rw [if_neg hxy] at hab
                rw [if_pos hyz] at hbc
                simp only [decide_eq_true_eq] at hab
                have hxz : ¬ x.toNat = z.toNat := by omega
                rw [if_neg hxz]
                simp only [decide_eq_true_eq]
                omega
              · rw [if_neg hxy] at hab
                rw [if_neg hyz] at hbc
                simp only [decide_eq_true_eq] at hab hbc
                have hxz : ¬ x.toNat = z.toNat := by omega
                rw [if_neg hxz]
                simp only [decide_eq_true_eq]
                omega

/-- `setFirst` rewrites one `updated` field but keeps the key sequence. -/
theorem mergeRefs_setFirst_map_key (l : List IssueRef) (n : IssueRef) :
    (mergeRefs.setFirst l n).map IssueRef.key = l.map IssueRef.key := by
  induction l with
  | nil => rfl
  | cons item rest ih =>
      simp only [mergeRefs.setFirst]
      split <;> simp [ih]

/-- One merge step keeps every existing key and makes the new key present. -/
theorem mergeRefs_mergeOne_keys (acc : List IssueRef) (n : IssueRef) :
    (∀ k, k ∈ acc.map IssueRef.key → k ∈ (mergeRefs.mergeOne acc n).map IssueRef.key) ∧
    n.key ∈ (mergeRefs.mergeOne acc n).map IssueRef.key := by
  unfold mergeRefs.mergeOne
  split
  · next hany =>
      rw [mergeRefs_setFirst_map_key]
      refine ⟨fun k hk => hk, ?_⟩
      simp only [List.any_eq_true, decide_eq_true_eq] at hany
      obtain ⟨item, hmem, hkey⟩ := hany
      exact hkey ▸ List.mem_map_of_mem IssueRef.key hmem
  · refine ⟨fun k hk => ?_, ?_⟩ <;> simp_all

/-- The merge keeps every previous key and adds every new ref's key. -/
theorem mergeRefs_keys (ns : List IssueRef) (acc : List IssueRef) :
    (∀ k, k ∈ acc.map IssueRef.key → k ∈ (mergeRefs acc ns).map IssueRef.key) ∧
    (∀ n ∈ ns, n.key ∈ (mergeRefs acc ns).map IssueRef.key) := by
  induction ns generalizing acc with
  | nil => exact ⟨fun k hk => hk, fun n hn => absurd hn (List.not_mem_nil n)⟩
  | cons n rest ih =>
      have hone := mergeRefs_mergeOne_keys acc n
      have hrest := ih (mergeRefs.mergeOne acc n)
      have hfold : mergeRefs acc (n :: rest) = mergeRefs (mergeRefs.mergeOne acc n) rest := rfl
      rw [hfold]
      refine ⟨fun k hk => hrest.1 k (hone.1 k hk), ?_⟩
      intro m hm
      rcases List.mem_cons.mp hm with hm | hm
      · exact hm ▸ hrest.1 n.key hone.2
      · exact hrest.2 m hm

/-- One merge step preserves distinctness of the listed keys. -/
theorem mergeRefs_mergeOne_nodup (acc : List IssueRef) (n : IssueRef)
    (h : (acc.map IssueRef.key).Nodup) :
    ((mergeRefs.mergeOne acc n).map IssueRef.key).Nodup := by
  unfold mergeRefs.mergeOne
  split
  · rw [mergeRefs_setFirst_map_key]
    exact h
  · next hany =>
      have hnot : n.key ∉ acc.map IssueRef.key := by
        simp only [List.any_eq_true, decide_eq_true_eq] at hany
        intro hmem
        obtain ⟨item, hitem, hkey⟩ := List.mem_map.mp hmem
        exact hany ⟨item, hitem, hkey⟩
      simp [List.map_append, List.nodup_append, h, hnot]

/-- The merge preserves distinctness of the listed keys. -/
theorem mergeRefs_nodup (ns : List IssueRef) (acc : List IssueRef)
    (h : (acc.map IssueRef.key).Nodup) :
    ((mergeRefs acc ns).map IssueRef.key).Nodup := by
  induction ns generalizing acc with
  | nil => exact h
  | cons n rest ih => exact ih (mergeRefs.mergeOne acc n) (mergeRefs_mergeOne_nodup acc n h)

/-- C4: an incremental pass (cursor present) whose bulk search succeeded
leaves the workspace listing `L` holding every key the remote returned,
dropping no key that was previously in the listing, sorted ascending by
key, and written both to the in-memory map and to the persisted
`workspace_issues` table (the persistent write requires the previous
listing's keys to be distinct, since `workspace_issues` has a primary key
on `(workspace, issue_key)`). -/
theorem c4_incremental_merge_preserves_listing
    (script : String → Nat → List (Except JiraErrModel BulkPage))
    (cache : CacheState) (result : SyncResult) (workspace baseJql : String)
    (budget now : Nat) (c : String) (issues : List IssueData)
    (hcur : cache.getSyncCursor workspace = some c)
    (hsearch : search_issues_bulk
        (script (composeJql baseJql (some c)) (min budget 100))
        (composeJql baseJql (some c)) (min budget 100) = Except.ok issues)
    (hnodup : ((snapshotIssues cache workspace now).map IssueRef.key).Nodup) :
    ∃ L : List IssueRef,
      ((((syncWorkspaceStep script cache result workspace baseJql budget false
          now).1).workspaceIssues workspace).map CacheEntry.value) = some L ∧
      ((syncWorkspaceStep script cache result workspace baseJql budget false
          now).1).persistentListing workspace = some L ∧
      (∀ issue ∈ issues, issue.key ∈ L.map IssueRef.key) ∧
      (∀ r ∈ snapshotIssues cache workspace now, r.key ∈ L.map IssueRef.key) ∧
      L.Pairwise (fun a b => refKeyLe a b = true) := by
  have hpers : cache.persistent.isSome = true := by
    unfold CacheState.getSyncCursor at hcur
    rcases hp : cache.persistent with _ | p
    · rw [hp] at hcur
      cases hcur
    · rfl
  unfold snapshotIssues at hnodup
  set latestRefs := issues.map (fun issue => IssueRef.mk issue.key issue.updated)
    with hlatest
  set old := (match (cache.getWorkspaceIssuesSnapshot workspace now).1 with
    | some snapshot => snapshot.issues
    | none => []) with hold
  set merged := (mergeRefs old latestRefs).mergeSort refKeyLe with hmerged
  have hsnap := CacheState.getWorkspaceIssuesSnapshot_snd cache workspace now
  have hmergednodup : (merged.map IssueRef.key).Nodup := by
    rw [hmerged]
    have hperm := (List.mergeSort_perm (mergeRefs old latestRefs) refKeyLe).map
      IssueRef.key
    exact hperm.nodup_iff.mpr (mergeRefs_nodup latestRefs old hnodup)
  have hup := CacheState.upsertWorkspaceIssues_spec
    ((cache.getWorkspaceIssuesSnapshot workspace now).2) workspace merged now
  have hupSome : (((cache.getWorkspaceIssuesSnapshot workspace
      now).2).upsertWorkspaceIssues workspace merged now).persistent.isSome = true := by
    rw [hup.2.2.1, hsnap.2.1]
    exact hpers
  have hupMem : ((((cache.getWorkspaceIssuesSnapshot workspace
      now).2).upsertWorkspaceIssues workspace merged now).workspaceIssues
      workspace).map CacheEntry.value = some merged := by
    rw [hup.2.1]
    rfl
  have hupPer : (((cache.getWorkspaceIssuesSnapshot workspace
      now).2).upsertWorkspaceIssues workspace merged now).persistentListing workspace =
      some merged := by
    refine hup.2.2.2 ?_ hmergednodup
    rw [hsnap.2.1]
    exact hpers
  have hkeysperm := (List.mergeSort_perm (mergeRefs old latestRefs) refKeyLe).map
    IssueRef.key
  have hmemkeys : ∀ k, k ∈ (mergeRefs old latestRefs).map IssueRef.key →
      k ∈ merged.map IssueRef.key := fun k hk => hkeysperm.mem_iff.mpr hk
  have hfinal :
      ∀ (final : CacheState),
        (final.workspaceIssues = (((cache.getWorkspaceIssuesSnapshot workspace
            now).2).upsertWorkspaceIssues workspace merged now).workspaceIssues) →
        (final.persistentListing workspace = (((cache.getWorkspaceIssuesSnapshot
            workspace now).2).upsertWorkspaceIssues workspace merged
            now).persistentListing workspace) →
        ((final.workspaceIssues workspace).map CacheEntry.value = some merged ∧
          final.persistentListing workspace = some merged) := by
    intro final hmemEq hperEq
    constructor
    · rw [hmemEq]
      exact hupMem
    · rw [hperEq]
      exact hupPer
  have hAB :
      ((((syncWorkspaceStep script cache result workspace baseJql budget false
          now).1).workspaceIssues workspace).map CacheEntry.value = some merged) ∧
      ((syncWorkspaceStep script cache result workspace baseJql budget false
          now).1).persistentListing workspace = some merged := by
    simp only [syncWorkspaceStep, hcur, Bool.false_eq_true, if_false, Option.isNone_some,
      hsearch, ← hlatest, ← hold, ← hmerged]
    by_cases hemp : issues.isEmpty
    · simp only [hemp, if_true]
      exact And.intro (hfinal _ rfl rfl).1 (hfinal _ rfl rfl).2
    · simp only [hemp, Bool.false_eq_true, if_false]
      generalize hAL : ((cache.getWorkspaceIssuesSnapshot workspace
        now).2).upsertWorkspaceIssues workspace merged now = afterListing
        at hupMem hupPer hfinal
      have hb1 := CacheState.upsertIssuesBatch_preserves afterListing
        ((issues.take (min issues.length (budget - result.issuesCached))).map fun issue =>
          (issue.key, render_issue_markdown issue, issue.updated)) now workspace
      generalize hB1 : (afterListing.upsertIssuesBatch
        ((issues.take (min issues.length (budget - result.issuesCached))).map fun issue =>
          (issue.key, render_issue_markdown issue, issue.updated)) now).2 = afterBatch
        at hb1 ⊢
      have hb2 := CacheState.upsertIssueSidecarsBatch_preserves afterBatch
        ((issues.take (min issues.length (budget - result.issuesCached))).map fun issue =>
          (issue.key, render_issue_comments_markdown issue, issue.updated)) now workspace
      generalize hB2 : (afterBatch.upsertIssueSidecarsBatch
        ((issues.take (min issues.length (budget - result.issuesCached))).map fun issue =>
          (issue.key, render_issue_comments_markdown issue, issue.updated)) now).2 =
        afterSidecars at hb2 ⊢
      split
      · next latest hup' =>
          have hset := CacheState.setSyncCursor_spec afterSidecars workspace latest
          exact hfinal _ (by rw [hset.1, hb2.2.1, hb1.2.1])
            (by rw [hset.2.1, hb2.2.2, hb1.2.2])
      · exact hfinal _ (by rw [hb2.2.1, hb1.2.1]) (by rw [hb2.2.2, hb1.2.2])
  refine ⟨merged, hAB.1, hAB.2, ?_, ?_, ?_⟩
  · intro issue hissue
    exact hmemkeys _ ((mergeRefs_keys latestRefs old).2
      ⟨issue.key, issue.updated⟩ (List.mem_map_of_mem _ hissue))
  · intro r hr
    have hsnapeq : snapshotIssues cache workspace now = old := rfl
    rw [hsnapeq] at hr
    exact hmemkeys _ ((mergeRefs_keys latestRefs old).1 r.key
      (List.mem_map_of_mem _ hr))
  · rw [hmerged]
    exact List.sorted_mergeSort
      (fun a b c hab hbc => charListLe_trans a.key.data b.key.data c.key.data hab hbc)
      (fun a b => charListLe_total a.key.data b.key.data)
      (mergeRefs old latestRefs)

/-- C4 witness: the merge theorem at the concrete pass — previous listing
`[ST-0]`, cursor `T0`, page `[ST-2, ST-1]` — yields a listing containing
all three keys, sorted ascending, in memory and persistence. -/
theorem c4_incremental_merge_preserves_listing_witness :
    ∃ L : List IssueRef,
      ((((syncWorkspaceStep c4Script c4Cache ⟨0, 0, []⟩ "w" "q" 10 false
          0).1).workspaceIssues "w").map CacheEntry.value) = some L ∧
      ((syncWorkspaceStep c4Script c4Cache ⟨0, 0, []⟩ "w" "q" 10 false
          0).1).persistentListing "w" = some L ∧
      (∀ issue ∈ [mkIssue "ST-2" (some "u2"), mkIssue "ST-1" (some "u1")],
        issue.key ∈ L.map IssueRef.key) ∧
      (∀ r ∈ snapshotIssues c4Cache "w" 0, r.key ∈ L.map IssueRef.key) ∧
      L.Pairwise (fun a b => refKeyLe a b = true) :=
  c4_incremental_merge_preserves_listing c4Script c4Cache ⟨0, 0, []⟩ "w" "q" 10 0 "T0"
    [mkIssue "ST-2" (some "u2"), mkIssue "ST-1" (some "u1")] rfl rfl (by decide)

/-- C10: over any workspace list, budget, and scripted remote, `sync_issues`
returns `issues_cached ≤ budget` — each pass batches at most
`min(page length, budget − already cached)` issues and the loop breaks once
the budget is reached. -/
theorem c10_sync_issues_never_exceeds_budget
    (script : String → Nat → List (Except JiraErrModel BulkPage))
    (cache : CacheState) (workspaces : List (String × String)) (budget : Nat)
    (forceFull : Bool) (now : Nat) :
    (sync_issues script cache workspaces budget forceFull now).2.issuesCached ≤
      budget := by
  unfold sync_issues
  split
  · simp
  · split
    · simp
    · exact syncIssuesGo_cached_le script budget forceFull now workspaces cache
        ⟨0, 0, []⟩ (Nat.zero_le budget)

/-- Full characterisation of the retry loop for any suffix of attempts:
bounded retries, one API request per attempt, retries happen only on
retryable HTTP responses with the sleep dictated by
`retry_after_or_backoff`, and the loop ends on the first transport error or
non-retried response. -/
theorem retryLoop_spec (send : Nat → SendOutcome) :
    ∀ (fuel attempt : Nat), 0 < fuel →
      (retryLoop send attempt fuel).retries ≤ fuel - 1 ∧
      (retryLoop send attempt fuel).apiRequests =
        (retryLoop send attempt fuel).retries + 1 ∧
      (∀ k, k < (retryLoop send attempt fuel).retries →
        ∃ status ra, send (attempt + k) = SendOutcome.http status ra ∧
          is_retryable status = true ∧
          (retryLoop send attempt fuel).waits.get? k =
            some (retry_after_or_backoff ra (attempt + k))) ∧
      (∀ msg,
        send (attempt + (retryLoop send attempt fuel).retries) =
          SendOutcome.transport msg →
        (retryLoop send attempt fuel).result =
          Except.error (JiraErrModel.request msg)) ∧
      (∀ status ra,
        send (attempt + (retryLoop send attempt fuel).retries) =
          SendOutcome.http status ra →
        (retryLoop send attempt fuel).result = Except.ok (status, ra)) := by
  intro fuel
  induction fuel with
  | zero => intro attempt h; omega
  | succ f ih =>
      intro attempt _
      simp only [retryLoop]
      rcases hsend : send attempt with msg | ⟨status, ra⟩
      · refine ⟨by simp, by simp, by simp, ?_, ?_⟩
        · intro msg' hmsg
          simp only [Nat.add_zero] at hmsg
          rw [hsend] at hmsg
          cases hmsg
          rfl
        · intro status' ra' hmsg
          simp only [Nat.add_zero] at hmsg
          rw [hsend] at hmsg
          cases hmsg
      · by_cases hstop : ¬ is_retryable status = true ∨ f = 0
        · simp only [hstop, if_true]
          refine ⟨by simp, by simp, by simp, ?_, ?_⟩
          · intro msg hmsg
            simp only [Nat.add_zero] at hmsg
            rw [hsend] at hmsg
            cases hmsg
          · intro status' ra' hmsg
            simp only [Nat.add_zero] at hmsg
            rw [hsend] at hmsg
            cases hmsg
            rfl
        · have hretry : is_retryable status = true := by
            by_cases h : is_retryable status = true
            · exact h
            · exact absurd (Or.inl h) hstop
          have hf : 0 < f := by
            rcases Nat.eq_zero_or_pos f with h | h
            · exact absurd (Or.inr h) hstop
            · exact h
          simp only [hstop, if_false]
          obtain ⟨ihbound, ihapi, ihwaits, ihtrans, ihok⟩ := ih (attempt + 1) hf
          refine ⟨by simp; omega, by simp [ihapi]; omega, ?_, ?_, ?_⟩
          · intro k hk
            have hk' : k < 1 + (retryLoop send (attempt + 1) f).retries := hk
            rcases k with _ | j
            · refine ⟨status, ra, by simpa using hsend, hretry, ?_⟩
              simp
            · have hj : j < (retryLoop send (attempt + 1) f).retries := by omega
              obtain ⟨status', ra', hsend', hret', hwait'⟩ := ihwaits j hj
              have harith : attempt + (j + 1) = (attempt + 1) + j := by omega
              refine ⟨status', ra', by rw [harith]; exact hsend', hret', ?_⟩
              rw [harith]
              simpa using hwait'
          · intro msg hmsg
            have harith : attempt + (1 + (retryLoop send (attempt + 1) f).retries) =
                (attempt + 1) + (retryLoop send (attempt + 1) f).retries := by omega
            have hmsg' : send ((attempt + 1) + (retryLoop send (attempt + 1) f).retries) =
                SendOutcome.transport msg := by
              rw [← harith]
              exact hmsg
            exact ihtrans msg hmsg'
          · intro status' ra' hmsg
            have harith : attempt + (1 + (retryLoop send (attempt + 1) f).retries) =
                (attempt + 1) + (retryLoop send (attempt + 1) f).retries := by omega
            have hmsg' : send ((attempt + 1) + (retryLoop send (attempt + 1) f).retries) =
                SendOutcome.http status' ra' := by
              rw [← harith]
              exact hmsg
            exact ihok status' ra' hmsg'

/-- C6: per send, at most `max_retries = 3` retries happen; `api_requests`
counts every attempt (one more than `retries`); every retry was provoked by
an HTTP 429/5xx response and slept `min(Retry-After, 30)` seconds when the
header parses as a nonnegative integer and `2^min(attempt, 4)` seconds
otherwise; a transport error surfaces immediately as the result with no
further attempt; and the first non-retried response is returned as-is. -/
theorem c6_retry_policy (send : Nat → SendOutcome) :
    (request_with_retry send).retries ≤ maxRetries ∧
    (request_with_retry send).apiRequests = (request_with_retry send).retries + 1 ∧
    (∀ k, k < (request_with_retry send).retries →
      ∃ status ra, send k = SendOutcome.http status ra ∧ is_retryable status = true ∧
        (request_with_retry send).waits.get? k =
          some (retry_after_or_backoff ra k)) ∧
    (∀ msg, send (request_with_retry send).retries = SendOutcome.transport msg →
      (request_with_retry send).result = Except.error (JiraErrModel.request msg)) ∧
    (∀ status ra, send (request_with_retry send).retries = SendOutcome.http status ra →
      (request_with_retry send).result = Except.ok (status, ra)) ∧
    (∀ header v attempt, parseU64 header = some v →
      retry_after_or_backoff (some header) attempt = min v 30) ∧
    (∀ header attempt, parseU64 header = none →
      retry_after_or_backoff (some header) attempt = 2 ^ min attempt 4) ∧
    (∀ attempt, retry_after_or_backoff none attempt = 2 ^ min attempt 4) := by
  obtain ⟨hbound, hapi, hwaits, htrans, hok⟩ :=
    retryLoop_spec send (maxRetries + 1) 0 (by omega)
  refine ⟨by simpa [request_with_retry] using hbound,
    by simpa [request_with_retry] using hapi, ?_, ?_, ?_, ?_, ?_, ?_⟩
  · intro k hk
    simpa [request_with_retry] using hwaits k (by simpa [request_with_retry] using hk)
  · intro msg hmsg
    exact htrans msg (by simpa [request_with_retry] using hmsg)
  · intro status ra hmsg
    exact hok status ra (by simpa [request_with_retry] using hmsg)
  · intro header v attempt hparse
    simp [retry_after_or_backoff, hparse]
  · intro header attempt hparse
    simp [retry_after_or_backoff, hparse, Nat.shiftLeft_eq]
  · intro attempt
    simp [retry_after_or_backoff, Nat.shiftLeft_eq]

/-- C6 witness: a 429 with `Retry-After: 0` followed by a 200 yields
`retries = 1`, `api_requests = 2`, a zero-second sleep, and the 200 result;
the retry-characterisation conjunct is instantiated at `k = 0`. -/
theorem c6_retry_policy_witness :
    (request_with_retry c6Send).retries = 1 ∧
    (request_with_retry c6Send).apiRequests = 2 ∧
    (request_with_retry c6Send).waits = [0] ∧
    (request_with_retry c6Send).result = Except.ok (200, none) ∧
    (∃ status ra, c6Send 0 = SendOutcome.http status ra ∧ is_retryable status = true ∧
      (request_with_retry c6Send).waits.get? 0 = some (retry_after_or_backoff ra 0)) := by
  refine ⟨rfl, rfl, rfl, rfl, ?_⟩
  exact (c6_retry_policy c6Send).2.2.1 0 (by decide)

/-- C7: `write` returns `EROFS` for every inode other than the two writable
meta inodes; on those it returns `EINVAL` for a non-zero offset; otherwise
it reports `written = data.len()` and fires the inode's trigger exactly
when the lowercased, trimmed payload is `"1"` or `"true"` — and never the
other inode's trigger. -/
theorem c7_write_contract (ino offset : Nat) (data : List Nat) :
    ((ino ≠ INO_MANUAL_REFRESH ∧ ino ≠ INO_FULL_REFRESH) →
      fsWrite ino offset data = ⟨Except.error Errno.EROFS, none⟩) ∧
    ((ino = INO_MANUAL_REFRESH ∨ ino = INO_FULL_REFRESH) → offset ≠ 0 →
      fsWrite ino offset data = ⟨Except.error Errno.EINVAL, none⟩) ∧
    ((ino = INO_MANUAL_REFRESH ∨ ino = INO_FULL_REFRESH) → offset = 0 →
      (fsWrite ino offset data).reply = Except.ok data.length ∧
      ((fsWrite ino offset data).trigger ≠ none ↔
        (trimBytes (data.map asciiLowerByte) = asciiBytes "1" ∨
          trimBytes (data.map asciiLowerByte) = asciiBytes "true")) ∧
      (ino = INO_MANUAL_REFRESH →
        (fsWrite ino offset data).trigger ≠ some TriggerKind.manualFull) ∧
      (ino = INO_FULL_REFRESH →
        (fsWrite ino offset data).trigger ≠ some TriggerKind.manual)) := by
  refine ⟨?_, ?_, ?_⟩
  · intro h
    simp [fsWrite, h.1, h.2]
  · intro hino hoff
    have hnot : ¬ (ino ≠ INO_MANUAL_REFRESH ∧ ino ≠ INO_FULL_REFRESH) := by tauto
    simp [fsWrite, hnot, hoff]
  · intro hino hoff
    have hnot : ¬ (ino ≠ INO_MANUAL_REFRESH ∧ ino ≠ INO_FULL_REFRESH) := by tauto
    subst hoff
    simp only [fsWrite, hnot, if_false]
    rw [if_neg (by omega : ¬ ((0 : Nat) ≠ 0))]
    refine ⟨rfl, ?_, ?_, ?_⟩
    · by_cases hc : trimBytes (data.map asciiLowerByte) = asciiBytes "1" ∨
          trimBytes (data.map asciiLowerByte) = asciiBytes "true" <;> simp [hc]
    · intro hman
      subst hman
      by_cases hc : trimBytes (data.map asciiLowerByte) = asciiBytes "1" ∨
          trimBytes (data.map asciiLowerByte) = asciiBytes "true" <;>
        simp [hc, INO_MANUAL_REFRESH, INO_FULL_REFRESH]
    · intro hfull
      subst hfull
      by_cases hc : trimBytes (data.map asciiLowerByte) = asciiBytes "1" ∨
          trimBytes (data.map asciiLowerByte) = asciiBytes "true" <;>
        simp [hc, INO_MANUAL_REFRESH, INO_FULL_REFRESH]

/-- C7 witness: a write to an ordinary inode is `EROFS`; offset 5 on
`manual_refresh` is `EINVAL`; writing `"maybe"` reports `written = 5` and
fires no trigger; writing `" TRUE\n"` to `full_refresh` fires the full
trigger. -/
theorem c7_write_contract_witness :
    fsWrite 5 0 (asciiBytes "1") = ⟨Except.error Errno.EROFS, none⟩ ∧
    fsWrite INO_MANUAL_REFRESH 5 (asciiBytes "1") = ⟨Except.error Errno.EINVAL, none⟩ ∧
    (fsWrite INO_MANUAL_REFRESH 0 (asciiBytes "maybe")).reply = Except.ok 5 ∧
    (fsWrite INO_MANUAL_REFRESH 0 (asciiBytes "maybe")).trigger = none ∧
    (fsWrite INO_FULL_REFRESH 0 (asciiBytes " TRUE\n")).trigger =
      some TriggerKind.manualFull := by
  refine ⟨(c7_write_contract 5 0 (asciiBytes "1")).1 (by decide),
    (c7_write_contract INO_MANUAL_REFRESH 5 (asciiBytes "1")).2.1 (Or.inl rfl)
      (by decide), ?_, by decide, by decide⟩
  have h := ((c7_write_contract INO_MANUAL_REFRESH 0 (asciiBytes "maybe")).2.2
    (Or.inl rfl) rfl).1
  simpa using h

set_option maxRecDepth 40000 in
/-- C8 counterexample: for an issue whose `parent` is a 40-character token,
the emitted main markdown still contains that token unreplaced — running
the redaction pass over the final string changes it, so not every
occurrence of the secret patterns in the emitted markdown was replaced.
The pass applied to the front-matter value alone would have produced
`"[REDACTED]"`. -/
theorem c8_final_markdown_keeps_secret_token :
    redact_secrets (render_issue_markdown c8Issue) ≠ render_issue_markdown c8Issue ∧
    redact_secrets (yaml_opt c8Issue.parent) = "\"[REDACTED]\"" := by
  constructor
  · decide
  · decide

/-- C8 (amended): the redaction pass runs over individual inputs during
rendering — the summary (shown here), assignee, reporter, labels,
attachment filenames and the rendered description — and the assembled
string is not re-scanned: the issue key is emitted verbatim in the `id:`
line and the `parent:` value is emitted as `yaml_opt` of the raw field with
no redaction applied. -/
theorem c8_redaction_applied_during_render (issue : IssueData) :
    render_issue_markdown issue =
      renderFrontMatter issue ++
        ("## Summary\n\n" ++ redact_secrets (issue.summary.getD "(no summary)") ++
          "\n\n") ++
        renderTailSections issue ∧
    (∃ rest, renderFrontMatter issue = "---\nid: " ++ issue.key ++ "\n" ++ rest) ∧
    (∃ pre post, renderFrontMatter issue =
      pre ++ "parent: " ++ yaml_opt issue.parent ++ "\n" ++ post) := by
  refine ⟨rfl, ?_, ?_⟩
  · rw [show ("---\nid: " : String) = "---\n" ++ "id: " from by decide]
    simp only [renderFrontMatter, String.append_assoc]
    exact ⟨_, rfl⟩
  · refine ⟨"---\n" ++ "id: " ++ issue.key ++ "\n" ++
      "project: " ++ issue.project ++ "\n" ++
      "type: " ++ canonical_type issue.issueType ++ "\n" ++
      "status: " ++ canonical_status issue.status ++ "\n" ++
      "priority: " ++ canonical_priority issue.priority ++ "\n" ++
      "assignee: " ++ yaml_quote (redact_secrets (issue.assignee.getD "unassigned")) ++
        "\n" ++
      "reporter: " ++ yaml_quote (redact_secrets (issue.reporter.getD "unknown")) ++
        "\n" ++
      "labels: " ++ yaml_array (issue.labels.map redact_secrets) ++ "\n" ++
      "created_at: " ++ yaml_opt (normalize_iso_utc issue.created) ++ "\n" ++
      "updated_at: " ++ yaml_opt (normalize_iso_utc issue.updated) ++ "\n",
      "epic: " ++ yaml_opt issue.epic ++ "\n" ++
      "blocks: " ++ yaml_array issue.blocks ++ "\n" ++
      "blocked_by: " ++ yaml_array issue.blockedBy ++ "\n" ++
      "relates_to: " ++ yaml_array issue.relatesTo ++ "\n" ++
      "due_at: " ++ yaml_opt (normalize_iso_utc issue.dueAt) ++ "\n" ++
      "version: 2\n" ++
      "source_url: " ++ yaml_quote issue.sourceUrl ++ "\n" ++
      "---\n\n", ?_⟩
    simp only [renderFrontMatter, String.append_assoc]

-- ### C9 helper theorems

/-- `dropWhile` is the identity when the head (if any) fails the test. -/
theorem dropWhile_eq_self_of_head (p : Char → Bool) (l : List Char)
    (h : ∀ c, l.head? = some c → p c = false) : l.dropWhile p = l := by
  cases l with
  | nil => rfl
  | cons a as => rw [List.dropWhile_cons, h a rfl]; simp

/-- The head of a `dropWhile` result fails the test. -/
theorem head_dropWhile_false (p : Char → Bool) (l : List Char) :
    ∀ c, (l.dropWhile p).head? = some c → p c = false := by
  induction l with
  | nil => intro c h; cases h
  | cons a as ih =>
    intro c h
    rw [List.dropWhile_cons] at h
    by_cases hpa : p a = true
    · rw [if_pos hpa] at h; exact ih c h
    · rw [if_neg hpa] at h
      cases h
      exact Bool.eq_false_iff.mpr hpa

/-- Sublists preserve `all`. -/
theorem all_of_sublist (p : Char → Bool) (l m : List Char) (hs : l.Sublist m)
    (h : m.all p = true) : l.all p = true := by
  rw [List.all_eq_true] at h ⊢
  exact fun c hc => h c (hs.subset hc)

/-- `stripSlashes` over an append. -/
theorem stripSlashes_append (a b : List Char) :
    stripSlashes (a ++ b) =
      if stripSlashes b = [] then stripSlashes a else a ++ stripSlashes b := by
  unfold stripSlashes
  rw [List.reverse_append, List.dropWhile_append]
  by_cases hb : (b.reverse.dropWhile (fun c => c = '/')).isEmpty = true
  · rw [if_pos hb]
    rw [List.isEmpty_iff] at hb
    rw [if_pos (by rw [hb]; rfl)]
  · rw [if_neg hb]
    have hb' : ¬ ((b.reverse.dropWhile (fun c => c = '/')).reverse = []) := by
      rw [List.reverse_eq_nil_iff]
      intro hc
      exact hb (by rw [hc]; rfl)
    rw [if_neg hb', List.reverse_append, List.reverse_reverse]

/-- `stripSlashes` keeps a prefix of the list. -/
theorem stripSlashes_decomp (l : List Char) :
    ∃ t, l = stripSlashes l ++ t := by
  refine ⟨(l.reverse.takeWhile (fun c => c = '/')).reverse, ?_⟩
  unfold stripSlashes
  rw [← List.reverse_append, List.takeWhile_append_dropWhile, List.reverse_reverse]

/-- `stripSlashes` is the identity when no character is `/`. -/
theorem stripSlashes_of_no_slash (l : List Char)
    (h : ∀ c ∈ l, (c = '/') = False) : stripSlashes l = l := by
  unfold stripSlashes
  rw [dropWhile_eq_self_of_head, List.reverse_reverse]
  intro c hc
  have : c ∈ l := by
    have := List.mem_reverse.mp (List.mem_of_mem_head? hc)
    exact this
  simp [h c this]

/-- `stripSlashes` preserves `all`. -/
theorem stripSlashes_all (p : Char → Bool) (l : List Char)
    (h : l.all p = true) : (stripSlashes l).all p = true := by
  unfold stripSlashes
  rw [List.all_reverse]
  exact all_of_sublist _ _ _ (List.dropWhile_sublist _) (by rw [List.all_reverse]; exact h)

/-- `stripSlashes` is idempotent. -/
theorem stripSlashes_idem (l : List Char) :
    stripSlashes (stripSlashes l) = stripSlashes l := by
  unfold stripSlashes
  rw [List.reverse_reverse]
  rw [dropWhile_eq_self_of_head]
  intro c hc
  exact head_dropWhile_false _ _ c hc

/-- Characters produced by `hostCharLower` are canonical. -/
theorem hostCharLower_canon (c c' : Char) (h : hostCharLower c = some c') :
    isHostCanon c' = true := by
  unfold hostCharLower at h
  cases hf : asciiUpperLower.find? (fun p => p.1 = c) with
  | some p =>
    rw [hf] at h
    cases h
    have hp := List.mem_of_find?_eq_some hf
    have hall : ∀ q ∈ asciiUpperLower, isHostCanon q.2 = true := by decide
    exact hall p hp
  | none =>
    rw [hf] at h
    by_cases hc : isHostCanon c = true
    · rw [if_pos hc] at h; cases h; exact hc
    · rw [if_neg hc] at h; cases h

/-- Canonical characters are fixed points of `hostCharLower`. -/
theorem hostCharLower_canon_fixed (c : Char) (h : isHostCanon c = true) :
    hostCharLower c = some c := by
  unfold hostCharLower
  have hfind : asciiUpperLower.find? (fun p => p.1 = c) = none := by
    rw [List.find?_eq_none]
    intro p hp hEq
    have hpc : p.1 = c := of_decide_eq_true hEq
    have hall : ∀ q ∈ asciiUpperLower, isHostCanon q.1 = false := by decide
    have := hall p hp
    rw [hpc, h] at this
    cases this
  rw [hfind, if_pos h]

/-- All characters of a canonicalised host are canonical. -/
theorem hostLower_canon (l : List Char) :
    ∀ h, hostLower l = some h → ∀ c ∈ h, isHostCanon c = true := by
  induction l with
  | nil =>
    intro h hl c hc
    cases hl
    cases hc
  | cons a as ih =>
    intro h hl c hc
    unfold hostLower at hl
    cases ha : hostCharLower a with
    | none => rw [ha] at hl; cases hl
    | some a' =>
      cases has : hostLower as with
      | none => rw [ha, has] at hl; cases hl
      | some as' =>
        rw [ha, has] at hl
        cases hl
        rcases List.mem_cons.mp hc with rfl | hc'
        · exact hostCharLower_canon a c ha
        · exact ih as' has c hc'

/-- A list of canonical characters is a fixed point of `hostLower`. -/
theorem hostLower_fixed (h : List Char) (hc : ∀ c ∈ h, isHostCanon c = true) :
    hostLower h = some h := by
  induction h with
  | nil => rfl
  | cons a as ih =>
    unfold hostLower
    rw [hostCharLower_canon_fixed a (hc a (List.mem_cons_self a as)),
      ih (fun c hcc => hc c (List.mem_cons_of_mem a hcc))]

/-- Canonical host characters are not `/`. -/
theorem isHostCanon_ne_slash (c : Char) (h : isHostCanon c = true) :
    (c = '/') = False := by
  refine eq_false ?_
  intro hc
  subst hc
  exact absurd h (by decide)

/-- Canonical host characters are not `:`. -/
theorem isHostCanon_ne_colon (c : Char) (h : isHostCanon c = true) :
    (c = ':') = False := by
  refine eq_false ?_
  intro hc
  subst hc
  exact absurd h (by decide)

/-- Canonical host characters are not whitespace. -/
theorem isHostCanon_not_space (c : Char) (h : isHostCanon c = true) :
    isSpaceChar c = false := by
  by_cases hs : isSpaceChar c = true
  · unfold isSpaceChar at hs
    simp only [Bool.or_eq_true, decide_eq_true_eq] at hs
    rcases hs with ((((rfl | rfl) | rfl) | rfl) | rfl) | rfl <;>
      exact absurd h (by decide)
  · exact Bool.eq_false_iff.mpr hs

/-- Path characters are not whitespace. -/
theorem isUrlPathChar_not_space (c : Char) (h : isUrlPathChar c = true) :
    isSpaceChar c = false := by
  by_cases hs : isSpaceChar c = true
  · unfold isSpaceChar at hs
    simp only [Bool.or_eq_true, decide_eq_true_eq] at hs
    rcases hs with ((((rfl | rfl) | rfl) | rfl) | rfl) | rfl <;>
      exact absurd h (by decide)
  · exact Bool.eq_false_iff.mpr hs

/-- `splitAtSlash` of a slash-free list followed by a slash-headed (or
empty) tail. -/
theorem splitAtSlash_no_slash (a b : List Char) (ha : ∀ c ∈ a, (c = '/') = False)
    (hb : b = [] ∨ ∃ t, b = '/' :: t) :
    splitAtSlash (a ++ b) = (a, b) := by
  induction a with
  | nil =>
    rcases hb with rfl | ⟨t, rfl⟩
    · rfl
    · rw [List.nil_append]; unfold splitAtSlash; rw [if_pos rfl]
  | cons c cs ih =>
    rw [List.cons_append]
    unfold splitAtSlash
    rw [if_neg (by
      intro hc
      exact absurd hc ((ha c (List.mem_cons_self c cs)) ▸ not_false))]
    rw [ih (fun x hx => ha x (List.mem_cons_of_mem c hx))]

/-- `splitAtSlash` on a colon-free list: keep everything, no port. -/
theorem splitAtColon_no_colon (l : List Char) (h : ∀ c ∈ l, (c = ':') = False) :
    splitAtColon l = (l, none) := by
  induction l with
  | nil => rfl
  | cons c cs ih =>
    unfold splitAtColon
    rw [if_neg (by
      intro hc
      exact absurd hc ((h c (List.mem_cons_self c cs)) ▸ not_false))]
    rw [ih (fun x hx => h x (List.mem_cons_of_mem c hx))]

/-- The second component of `splitAtSlash` is empty or starts with `/`. -/
theorem splitAtSlash_snd (l : List Char) :
    (splitAtSlash l).2 = [] ∨ ∃ t, (splitAtSlash l).2 = '/' :: t := by
  induction l with
  | nil => exact Or.inl rfl
  | cons c cs ih =>
    unfold splitAtSlash
    by_cases hc : c = '/'
    · subst hc; rw [if_pos rfl]; exact Or.inr ⟨cs, rfl⟩
    · rw [if_neg hc]; exact ih

/-- Prefix test against an append whose left part is at least as long as the
tested prefix: only the left part matters. -/
theorem startsWithStr_mk_append (a m : List Char) (pre : String)
    (h : pre.data.length ≤ a.length) :
    startsWithStr (String.mk (a ++ m)) pre = decide (a.take pre.data.length = pre.data) := by
  have hTake : (String.mk (a ++ m)).data.take pre.data.length = a.take pre.data.length := by
    show (a ++ m).take pre.data.length = a.take pre.data.length
    rw [List.take_append_eq_append_take, Nat.sub_eq_zero_of_le h, List.take_zero,
      List.append_nil]
  unfold startsWithStr
  rw [hTake]

/-- Prefix test against an append: false whenever the tested prefix is at
least as long as the left part but differs from it on that stretch. -/
theorem startsWithStr_mk_append_false (a m : List Char) (pre : String)
    (hlen : a.length ≤ pre.data.length)
    (hne : ¬ (pre.data.take a.length = a)) :
    startsWithStr (String.mk (a ++ m)) pre = false := by
  unfold startsWithStr
  rw [decide_eq_false_iff_not]
  intro hEq
  apply hne
  have h8 := congrArg (List.take a.length) hEq
  rw [List.take_take, Nat.min_eq_left hlen, List.take_append_eq_append_take,
    List.take_length, Nat.sub_self, List.take_zero, List.append_nil] at h8
  exact h8.symm

/-- Inversion of `urlSerializeTail`. -/
theorem urlSerializeTail_inv (p r : List Char) (v : String)
    (h : urlSerializeTail p r = some v) :
    ∃ host, (∀ c ∈ host, isHostCanon c = true) ∧ host ≠ [] ∧
      (splitAtSlash r).2.all isUrlPathChar = true ∧
      ((splitAtSlash r).2 = [] ∨ ∃ t, (splitAtSlash r).2 = '/' :: t) ∧
      v = String.mk (p ++ host ++
        (if (splitAtSlash r).2 = [] then ['/'] else (splitAtSlash r).2)) := by
  unfold urlSerializeTail at h
  cases hl : hostLower (splitAtColon (splitAtSlash r).1).1 with
  | none => rw [hl] at h; cases h
  | some host =>
    rw [hl] at h
    dsimp only at h
    by_cases h0 : host = []
    · rw [if_pos h0] at h; cases h
    · rw [if_neg h0] at h
      by_cases hport : portOk (splitAtColon (splitAtSlash r).1).2 = false
      · rw [if_pos hport] at h; cases h
      · rw [if_neg hport] at h
        by_cases hpath : (splitAtSlash r).2.all isUrlPathChar = true
        · rw [if_pos hpath] at h
          cases h
          exact ⟨host, hostLower_canon _ host hl, h0, hpath, splitAtSlash_snd r, rfl⟩
        · rw [if_neg hpath] at h; cases h

/-- Re-parsing a serialised host-and-path succeeds and reproduces it. -/
theorem urlSerializeTail_reparse (p host stripped : List Char)
    (hh : ∀ c ∈ host, isHostCanon c = true) (hne : host ≠ [])
    (hs : stripped.all isUrlPathChar = true)
    (hsh : stripped = [] ∨ ∃ t, stripped = '/' :: t) :
    urlSerializeTail p (host ++ stripped) =
      some (String.mk (p ++ host ++ (if stripped = [] then ['/'] else stripped))) := by
  have hsplit : splitAtSlash (host ++ stripped) = (host, stripped) :=
    splitAtSlash_no_slash host stripped
      (fun c hc => isHostCanon_ne_slash c (hh c hc)) hsh
  have hcolon : splitAtColon host = (host, none) :=
    splitAtColon_no_colon host (fun c hc => isHostCanon_ne_colon c (hh c hc))
  unfold urlSerializeTail
  rw [hsplit]
  simp only [hcolon]
  rw [hostLower_fixed host hh]
  dsimp only
  rw [if_neg hne]
  rw [if_neg (by rw [show portOk none = true from rfl]; simp)]
  rw [if_pos hs]

/-- `rustTrim` is the identity on whitespace-free text. -/
theorem rustTrim_of_no_space (l : List Char) (h : ∀ c ∈ l, isSpaceChar c = false) :
    rustTrim (String.mk l) = String.mk l := by
  show String.mk (((l.dropWhile isSpaceChar).reverse.dropWhile isSpaceChar).reverse) =
    String.mk l
  rw [dropWhile_eq_self_of_head _ l (fun c hc => h c (List.mem_of_mem_head? hc)),
    dropWhile_eq_self_of_head _ l.reverse
      (fun c hc => h c (List.mem_reverse.mp (List.mem_of_mem_head? hc))),
    List.reverse_reverse]

/-- Trailing-slash stripping of a serialised URL never reaches past the
host. -/
theorem stripSlashes_scheme_host (p host path : List Char)
    (hh : ∀ c ∈ host, isHostCanon c = true) (hne : host ≠ []) :
    stripSlashes ((p ++ host) ++ path) = (p ++ host) ++ stripSlashes path := by
  rw [stripSlashes_append]
  by_cases hsp : stripSlashes path = []
  · rw [if_pos hsp, hsp, List.append_nil, stripSlashes_append,
      stripSlashes_of_no_slash host (fun c hc => isHostCanon_ne_slash c (hh c hc)),
      if_neg hne]
  · rw [if_neg hsp]

/-- A serialised-and-stripped URL is a fixed point of `normalize_base_url`,
provided it does not itself start with one of the collapsible doubled-scheme
typo spellings. -/
theorem normalize_fixed_serialized (p host stripped : List Char)
    (hp : p = ("https://").data ∨ p = ("http://").data)
    (hh : ∀ c ∈ host, isHostCanon c = true) (hne : host ≠ [])
    (hs : stripped.all isUrlPathChar = true)
    (hsh : stripped = [] ∨ ∃ t, stripped = '/' :: t)
    (hss : stripSlashes stripped = stripped)
    (h1 : startsWithStr (String.mk (p ++ (host ++ stripped))) "https://https//" = false)
    (h2 : startsWithStr (String.mk (p ++ (host ++ stripped))) "http://http//" = false) :
    normalize_base_url (String.mk (p ++ (host ++ stripped))) =
      Except.ok (String.mk (p ++ (host ++ stripped))) := by
  have hnospace : ∀ c ∈ p ++ (host ++ stripped), isSpaceChar c = false := by
    intro c hc
    rcases List.mem_append.mp hc with hcp | hcm
    · rcases hp with rfl | rfl
      · exact (show ∀ c ∈ ("https://").data, isSpaceChar c = false from by decide) c hcp
      · exact (show ∀ c ∈ ("http://").data, isSpaceChar c = false from by decide) c hcp
    · rcases List.mem_append.mp hcm with hch | hcs
      · exact isHostCanon_not_space c (hh c hch)
      · exact isUrlPathChar_not_space c (List.all_eq_true.mp hs c hcs)
  have htrim : rustTrim (String.mk (p ++ (host ++ stripped))) =
      String.mk (p ++ (host ++ stripped)) := rustTrim_of_no_space _ hnospace
  have hnempty : ¬ (String.mk (p ++ (host ++ stripped)) = "") := by
    rw [String.ext_iff]
    intro hd
    have : p ++ (host ++ stripped) = [] := hd
    rcases hp with rfl | rfl <;> simp at this
  -- prefix tests on the serialised URL
  have t3 : startsWithStr (String.mk (p ++ (host ++ stripped))) "https//" = false := by
    rcases hp with rfl | rfl <;>
      (rw [startsWithStr_mk_append _ _ _ (by decide)]; decide)
  have t4 : startsWithStr (String.mk (p ++ (host ++ stripped))) "http//" = false := by
    rcases hp with rfl | rfl <;>
      (rw [startsWithStr_mk_append _ _ _ (by decide)]; decide)
  have t56 : startsWithStr (String.mk (p ++ (host ++ stripped))) "https://" = true ∨
      startsWithStr (String.mk (p ++ (host ++ stripped))) "http://" = true := by
    rcases hp with rfl | rfl
    · exact Or.inl (by rw [startsWithStr_mk_append _ _ _ (by decide)]; decide)
    · exact Or.inr (by rw [startsWithStr_mk_append _ _ _ (by decide)]; decide)
  have hcand : normalizeCandidate (String.mk (p ++ (host ++ stripped))) =
      String.mk (p ++ (host ++ stripped)) := by
    unfold normalizeCandidate
    rw [h1, h2]
    simp only [Bool.false_eq_true, if_false]
    rw [t3, t4]
    simp only [Bool.false_eq_true, if_false]
    rcases t56 with t5 | t6
    · rw [t5]; simp
    · rw [t6]; simp
  have hparse : urlParseSerialize (String.mk (p ++ (host ++ stripped))) =
      some (String.mk (p ++ host ++ (if stripped = [] then ['/'] else stripped))) := by
    unfold urlParseSerialize
    rcases hp with rfl | rfl
    · rw [startsWithStr_mk_append _ _ _ (by decide)]
      rw [if_pos (by decide)]
      have hdrop : (String.mk (("https://").data ++ (host ++ stripped))).data.drop 8 =
          host ++ stripped := by
        show ((("https://").data ++ (host ++ stripped)).drop 8) = host ++ stripped
        rw [List.drop_append_eq_append_drop,
          show (("https://").data).drop 8 = [] from by decide,
          show (("https://").data).length = 8 from by decide,
          Nat.sub_self, List.drop_zero, List.nil_append]
      rw [hdrop]
      exact urlSerializeTail_reparse _ host stripped hh hne hs hsh
    · have t5 : startsWithStr (String.mk (("http://").data ++ (host ++ stripped)))
          "https://" = false :=
        startsWithStr_mk_append_false _ _ _ (by decide) (by decide)
      rw [t5]
      simp only [Bool.false_eq_true, if_false]
      rw [startsWithStr_mk_append _ _ _ (by decide)]
      rw [if_pos (by decide)]
      have hdrop : (String.mk (("http://").data ++ (host ++ stripped))).data.drop 7 =
          host ++ stripped := by
        show ((("http://").data ++ (host ++ stripped)).drop 7) = host ++ stripped
        rw [List.drop_append_eq_append_drop,
          show (("http://").data).drop 7 = [] from by decide,
          show (("http://").data).length = 7 from by decide,
          Nat.sub_self, List.drop_zero, List.nil_append]
      rw [hdrop]
      exact urlSerializeTail_reparse _ host stripped hh hne hs hsh
  have hstrip : trimEndSlashes
      (String.mk (p ++ host ++ (if stripped = [] then ['/'] else stripped))) =
      String.mk (p ++ (host ++ stripped)) := by
    unfold trimEndSlashes
    show String.mk (stripSlashes ((p ++ host) ++ _)) = _
    rw [stripSlashes_scheme_host p host _ hh hne]
    by_cases h0 : stripped = []
    · rw [if_pos h0, h0]
      rw [show stripSlashes ['/'] = [] from by decide]
      simp
    · rw [if_neg h0, hss, List.append_assoc]
  unfold normalize_base_url
  rw [htrim, if_neg hnempty, hcand, hparse]
  dsimp only
  rw [hstrip]

/-- Any `urlSerializeTail` result, stripped of trailing slashes, is a fixed
point of `normalize_base_url` (away from the typo-prefixed outputs). -/
theorem normalize_of_tail (p r : List Char) (v : String)
    (hp : p = ("https://").data ∨ p = ("http://").data)
    (hv : urlSerializeTail p r = some v)
    (h1 : startsWithStr (trimEndSlashes v) "https://https//" = false)
    (h2 : startsWithStr (trimEndSlashes v) "http://http//" = false) :
    normalize_base_url (trimEndSlashes v) = Except.ok (trimEndSlashes v) := by
  obtain ⟨host, hh, hne, hall, hshape, hveq⟩ := urlSerializeTail_inv p r v hv
  subst hveq
  have hu : trimEndSlashes (String.mk (p ++ host ++
      (if (splitAtSlash r).2 = [] then ['/'] else (splitAtSlash r).2))) =
      String.mk (p ++ (host ++ stripSlashes
        (if (splitAtSlash r).2 = [] then ['/'] else (splitAtSlash r).2))) := by
    unfold trimEndSlashes
    show String.mk (stripSlashes ((p ++ host) ++ _)) = _
    rw [stripSlashes_scheme_host p host _ hh hne, List.append_assoc]
  rw [hu] at h1 h2 ⊢
  refine normalize_fixed_serialized p host _ hp hh hne ?_ ?_ ?_ h1 h2
  · by_cases h0 : (splitAtSlash r).2 = []
    · rw [if_pos h0]; decide
    · rw [if_neg h0]; exact stripSlashes_all _ _ hall
  · by_cases h0 : (splitAtSlash r).2 = []
    · rw [if_pos h0]; left; decide
    · rw [if_neg h0]
      rcases hshape with h0' | ⟨t, ht⟩
      · exact absurd h0' h0
      · obtain ⟨t2, hdec⟩ := stripSlashes_decomp (splitAtSlash r).2
        cases hcase : stripSlashes (splitAtSlash r).2 with
        | nil => exact Or.inl rfl
        | cons c cs =>
          right
          rw [hcase, List.cons_append] at hdec
          have hx : c :: (cs ++ t2) = '/' :: t := by rw [← hdec, ht]
          injection hx with hc _
          exact ⟨cs, by rw [hc]⟩
  · exact stripSlashes_idem _

/-- Any `Ok` result of the URL-parse model, stripped of trailing slashes, is
a fixed point of `normalize_base_url` (away from the typo-prefixed
outputs). -/
theorem normalize_of_urlParse (s v : String) (hv : urlParseSerialize s = some v)
    (h1 : startsWithStr (trimEndSlashes v) "https://https//" = false)
    (h2 : startsWithStr (trimEndSlashes v) "http://http//" = false) :
    normalize_base_url (trimEndSlashes v) = Except.ok (trimEndSlashes v) := by
  unfold urlParseSerialize at hv
  by_cases hA : startsWithStr s "https://" = true
  · rw [if_pos hA] at hv
    exact normalize_of_tail _ _ v (Or.inl rfl) hv h1 h2
  · rw [if_neg hA] at hv
    by_cases hB : startsWithStr s "http://" = true
    · rw [if_pos hB] at hv
      exact normalize_of_tail _ _ v (Or.inr rfl) hv h1 h2
    · rw [if_neg hB] at hv
      cases hv

/-- C9 counterexample: normalisation is not idempotent. An uppercase-scheme
input gets `https://` prepended (the scheme tests are case-sensitive), the
URL parser reads `HTTPS:` as an authority with an empty port, and the result
`https://https//x` collapses to `https://x` on a second pass. -/
theorem c9_not_idempotent_on_uppercase_scheme :
    normalize_base_url "HTTPS://x" = Except.ok "https://https//x" ∧
    normalize_base_url "https://https//x" = Except.ok "https://x" ∧
    ("https://https//x" : String) ≠ ("https://x" : String) :=
  ⟨by decide, by decide, by decide⟩

/-- C9 amended: the spec's example mapping holds, and normalisation is
idempotent on every output that does not itself begin with one of the
collapsible doubled-scheme typo spellings. -/
theorem c9_normalize_idempotent_off_typo_outputs (raw u : String)
    (h : normalize_base_url raw = Except.ok u)
    (h1 : startsWithStr u "https://https//" = false)
    (h2 : startsWithStr u "http://http//" = false) :
    normalize_base_url u = Except.ok u ∧
      normalize_base_url "https//example.atlassian.net/" =
        Except.ok "https://example.atlassian.net" := by
  constructor
  · unfold normalize_base_url at h
    by_cases ht : rustTrim raw = ""
    · rw [if_pos ht] at h; cases h
    · rw [if_neg ht] at h
      cases hv : urlParseSerialize (normalizeCandidate (rustTrim raw)) with
      | none => rw [hv] at h; cases h
      | some v =>
        rw [hv] at h
        dsimp only at h
        injection h with huv
        rw [← huv] at h1 h2 ⊢
        exact normalize_of_urlParse _ v hv h1 h2
  · decide

/-- C9 witness: the amended theorem applied to the spec's own example. -/
theorem c9_normalize_idempotent_off_typo_outputs_witness :
    normalize_base_url "https//example.atlassian.net/" =
        Except.ok "https://example.atlassian.net" ∧
      normalize_base_url "https://example.atlassian.net" =
        Except.ok "https://example.atlassian.net" :=
  ⟨by decide,
    (c9_normalize_idempotent_off_typo_outputs "https//example.atlassian.net/"
      "https://example.atlassian.net" (by decide) (by decide) (by decide)).1⟩


end Jirafs
